import Mathlib

/-!
Verification development for the mci-py declarative tool-execution adapter.

The data model and operations below are shallowly embedded from the Python
sources (`src/mcipy/...`).  The templating engine module itself is not part
of the source tree that was provided (only its unit tests, its callers and
the specification describe it); every definition that stands in for it is
marked `Modelled from the spec:` in its doc comment and follows the wording
of the specification (section 4.1 of spec.md) plus the observable contract
fixed by the unit tests.

Strings are processed as `List Char` (Lean strings are wrappers around
`List Char`); the public entry points take and return `String`.
-/

/-- JSON-like values stored in the `props` / `env` context mappings
(Python: arbitrary `dict[str, Any]` values: strings, ints, bools, None,
lists, dicts). -/
inductive Value where
  | str (s : String)
  | num (n : Int)
  | bool (b : Bool)
  | null
  | arr (xs : List Value)
  | obj (fields : List (String × Value))
deriving Repr

/-- Decimal digit character (used to model Python `str(int)`). -/
def digitChar : Nat → Char
  | 0 => '0'
  | 1 => '1'
  | 2 => '2'
  | 3 => '3'
  | 4 => '4'
  | 5 => '5'
  | 6 => '6'
  | 7 => '7'
  | 8 => '8'
  | _ => '9'

/-- Fueled helper for `natToChars` (the fuel only serves structural
recursion; any fuel above the argument gives the same digits). -/
def natToCharsAux : Nat → Nat → List Char
  | 0, _ => []
  | fuel + 1, n =>
    if n < 10 then [digitChar n]
    else natToCharsAux fuel (n / 10) ++ [digitChar (n % 10)]

/-- Decimal digits of a natural number, most significant first
(models Python `str` on a non-negative `int`). -/
def natToChars (n : Nat) : List Char := natToCharsAux (n + 1) n

theorem natToCharsAux_congr (n : Nat) : ∀ f g : Nat, n < f → n < g →
    natToCharsAux f n = natToCharsAux g n := by
  induction n using Nat.strong_induction_on with
  | _ n ih =>
    intro f g hf hg
    match f, g with
    | f' + 1, g' + 1 =>
      rw [natToCharsAux, natToCharsAux]
      split
      · rfl
      · rename_i h10
        have hlt : n / 10 < n := Nat.div_lt_self (by omega) (by omega)
        rw [ih (n / 10) hlt f' g' (by omega) (by omega)]

/-- Decimal rendering of an integer (models Python `str(int)`). -/
def intToChars (n : Int) : List Char :=
  if n < 0 then '-' :: natToChars n.natAbs else natToChars n.toNat

/-- Python `repr()` of a context value, used when a value is rendered
inside a list or dict (string quoting approximated without escapes). -/
def pyRepr : Value → String
  | .str s => "'" ++ s ++ "'"
  | .num n => String.mk (intToChars n)
  | .bool b => if b then "True" else "False"
  | .null => "None"
  | .arr xs =>
    "[" ++ String.intercalate ", " (xs.attach.map (fun x => pyRepr x.1)) ++ "]"
  | .obj fs =>
    "\x7b" ++
      String.intercalate ", "
        (fs.attach.map (fun p => "'" ++ p.1.1 ++ "': " ++ pyRepr p.1.2)) ++
      "\x7d"
decreasing_by
  · simp_wf
    have := List.sizeOf_lt_of_mem x.2
    omega
  · simp_wf
    have h1 := List.sizeOf_lt_of_mem p.2
    obtain ⟨⟨a, b⟩, hp⟩ := p
    simp at h1 ⊢
    omega

/-- Python `str()` of a context value (a bare string prints without
quotes; everything else prints as its `repr`). -/
def valueToStr : Value → String
  | .str s => s
  | v => pyRepr v

/-- Template resolution failure (Python `TemplateError`), carrying the
offending `namespace.path` string.  `Modelled from the spec:` the real
`mcipy.templating.TemplateError` is an exception whose message names the
offending path; the three constructors are the three failure conditions of
spec section 4.1 step 3. -/
inductive TemplateError where
  | unknownRoot (path : String)
  | notFound (path : String)
  | nonDictAccess (path : String)
  | expectedCollection (path : String)
deriving Repr, DecidableEq

/-- The human-readable message of a `TemplateError` (Python `str(e)`),
shaped after the substrings the unit tests assert on. -/
def TemplateError.message : TemplateError → String
  | .unknownRoot p => "Unknown namespace in placeholder: " ++ p
  | .notFound p => "Placeholder path not found: " ++ p
  | .nonDictAccess p => "Cannot resolve " ++ p ++ ": non-dict value in path"
  | .expectedCollection p => "Cannot iterate " ++ p ++ ": expected array or object"

/-- Template rendering context (the dict built by
`BaseExecutor._build_context`): keys `props`, `env` and `input`. -/
structure TemplateContext where
  props : List (String × Value)
  env : List (String × Value)
  input : List (String × Value)

/-- `BaseExecutor._build_context`: builds the rendering context from
properties and environment variables; `input` is an alias of `props`. -/
def build_context (props env_vars : List (String × Value)) : TemplateContext :=
  { props := props, env := env_vars, input := props }

/-- The root mapping selected by the first path segment; `none` when the
segment is not one of the recognized namespaces. -/
def namespaceRoot (ctx : TemplateContext) (ns : String) :
    Option (List (String × Value)) :=
  if ns = "props" then some ctx.props
  else if ns = "env" then some ctx.env
  else if ns = "input" then some ctx.input
  else none

/-- Whitespace as trimmed inside `\x7b\x7b ... \x7d\x7d` braces. -/
def wsChar (c : Char) : Bool :=
  c = ' ' || c = '\t' || c = '\n' || c = '\r'

/-- Trim leading and trailing whitespace of a character list. -/
def trimChars (l : List Char) : List Char :=
  ((l.dropWhile wsChar).reverse.dropWhile wsChar).reverse

/-- Split a character list on `'.'` (Python `"a.b".split(".")`). -/
def splitDots : List Char → List (List Char)
  | [] => [[]]
  | c :: rest =>
    if c = '.' then [] :: splitDots rest
    else
      match splitDots rest with
      | [] => [[c]]
      | s :: ss => (c :: s) :: ss

/-- Walk the path segments after the namespace as nested mapping lookups
(`Modelled from the spec:` spec 4.1 steps 2-3; `path` is the full original
path carried for error reporting). -/
def walkPath (path : String) : Value → List (List Char) → Except TemplateError Value
  | v, [] => .ok v
  | .obj fields, s :: rest =>
    match List.lookup (String.mk s) fields with
    | some v => walkPath path v rest
    | none => .error (.notFound path)
  | _, _ :: _ => .error (.nonDictAccess path)

/-- `TemplateEngine._resolve_placeholder` (`Modelled from the spec:` the
method is absent from src/; spec 4.1 steps 1-3): split the trimmed path on
dots, require a recognized namespace as first segment, then walk the rest
as nested mapping lookups. -/
def resolve_placeholder (inner : List Char) (ctx : TemplateContext) :
    Except TemplateError Value :=
  let path := String.mk inner
  match splitDots inner with
  | [] => .error (.unknownRoot path)
  | ns :: segs =>
    match namespaceRoot ctx (String.mk ns) with
    | none => .error (.unknownRoot path)
    | some root => walkPath path (.obj root) segs

/-- Lexer state of the placeholder scanner: plain text, text after a
single `'\x7b'`, inside a token (accumulated content), or inside a token
after a single `'\x7d'`. -/
inductive ScanState where
  | text
  | textBrace
  | tok (acc : List Char)
  | tokBrace (acc : List Char)

/-- Scanner core of `TemplateEngine.render_basic` (`Modelled from the
spec:` the method is absent from src/; spec 4.1 and the design-note
tokenizer): replace every `\x7b\x7bpath\x7d\x7d` token by the string form
of its resolved value, single-pass (the substituted value is never
rescanned), fail on the first unresolvable token, and pass all other text
through unchanged.  An unterminated `\x7b\x7b` is passed through as
literal text. -/
def scanStep (ctx : TemplateContext) : ScanState → List Char → Except TemplateError (List Char)
  | .text, [] => .ok []
  | .text, c :: rest =>
    if c = '{' then scanStep ctx .textBrace rest
    else (scanStep ctx .text rest).map (c :: ·)
  | .textBrace, [] => .ok ['{']
  | .textBrace, c :: rest =>
    if c = '{' then scanStep ctx (.tok []) rest
    else (scanStep ctx .text rest).map (fun o => '{' :: c :: o)
  | .tok acc, [] => .ok ('{' :: '{' :: acc)
  | .tok acc, c :: rest =>
    if c = '}' then scanStep ctx (.tokBrace acc) rest
    else scanStep ctx (.tok (acc ++ [c])) rest
  | .tokBrace acc, [] => .ok ('{' :: '{' :: acc ++ ['}'])
  | .tokBrace acc, c :: rest =>
    if c = '}' then
      match resolve_placeholder (trimChars acc) ctx with
      | .error e => .error e
      | .ok v => (scanStep ctx .text rest).map ((valueToStr v).data ++ ·)
    else scanStep ctx (.tok (acc ++ ['}', c])) rest

/-- `TemplateEngine.render_basic` (`Modelled from the spec:` the method is
absent from src/; spec 4.1): single-pass placeholder substitution over a
string template. -/
def render_basic (template : String) (ctx : TemplateContext) :
    Except TemplateError String :=
  (scanStep ctx .text template.data).map String.mk

example : render_basic "Hello \x7b\x7bprops.name\x7d\x7d"
    (build_context [("name", .str "Alice")] []) = .ok "Hello Alice" := by rfl

example : render_basic "Just plain text" (build_context [] []) =
    .ok "Just plain text" := by rfl

example : render_basic "\x7b\x7b props.name \x7d\x7d and \x7b\x7b env.USER \x7d\x7d"
    (build_context [("name", .str "Alice")] [("USER", .str "testuser")]) =
    .ok "Alice and testuser" := by rfl

example : render_basic "Hello \x7b\x7bprops.missing\x7d\x7d"
    (build_context [("name", .str "Alice")] []) =
    .error (.notFound "props.missing") := by rfl

example : render_basic "\x7b\x7bprops.value.invalid\x7d\x7d"
    (build_context [("value", .str "string")] []) =
    .error (.nonDictAccess "props.value.invalid") := by rfl

/-- Numeric value of a decimal digit character. -/
def digitVal (c : Char) : Nat := c.toNat - 48

/-- Value of a list of decimal digits, most significant first. -/
def digitsToNat (l : List Char) : Nat :=
  l.foldl (fun a c => a * 10 + digitVal c) 0

/-- Characters allowed in a loop identifier (Python regex `\w`). -/
def identChar (c : Char) : Bool := c.isAlphanum || c = '_'

/-- Parse a leading run of decimal digits; `none` when there is none. -/
def parseNatPart (l : List Char) : Option (Nat × List Char) :=
  let ds := l.takeWhile Char.isDigit
  if ds.isEmpty then none else some (digitsToNat ds, l.drop ds.length)

/-- Parse a leading optionally-signed decimal integer. -/
def parseIntPart (l : List Char) : Option (Int × List Char) :=
  if l.head? = some '-' then
    (parseNatPart l.tail).map (fun p => (-(p.1 : Int), p.2))
  else (parseNatPart l).map (fun p => ((p.1 : Int), p.2))

/-- `some (l.drop p.length)` when `p` is a prefix of `l`, else `none`. -/
def expectPrefix (p l : List Char) : Option (List Char) :=
  if l.take p.length = p then some (l.drop p.length) else none

/-- Split a character list at the first occurrence of `pat`, returning the
text before it and the text after it. -/
def findSub (pat : List Char) : List Char → Option (List Char × List Char)
  | [] => none
  | c :: rest =>
    if (c :: rest).take pat.length = pat then some ([], (c :: rest).drop pat.length)
    else (findSub pat rest).map (fun p => (c :: p.1, p.2))

theorem findSub_eq_append {pat l a b : List Char} (h : findSub pat l = some (a, b)) :
    l = a ++ pat ++ b := by
  induction l generalizing a b with
  | nil => simp [findSub] at h
  | cons c rest ih =>
    rw [findSub] at h
    split at h
    · rename_i hc
      simp at h
      obtain ⟨h1, h2⟩ := h
      subst h1
      subst h2
      conv_lhs => rw [← List.take_append_drop pat.length (c :: rest)]
      rw [hc]
      simp
    · cases hf : findSub pat rest with
      | none => rw [hf] at h; simp at h
      | some p =>
        rw [hf] at h
        simp at h
        obtain ⟨h1, h2⟩ := h
        subst h1
        subst h2
        have := ih (a := p.1) (b := p.2) (by rw [hf])
        simp [this]

theorem findSub_length {pat l a b : List Char} (hp : pat ≠ [])
    (h : findSub pat l = some (a, b)) : b.length < l.length := by
  have := findSub_eq_append h
  subst this
  have : 0 < pat.length := List.length_pos.mpr hp
  simp
  omega

/-- The integers of Python `range(a, b)`, in increasing order; empty when
`b ≤ a`. -/
def rangeList (a b : Int) : List Int :=
  (List.range (b - a).toNat).map (fun k : Nat => a + (k : Int))

/-- Substitute the bare loop-variable token `\x7b\x7bident\x7d\x7d` by
`val` throughout a loop body, leaving every other placeholder token and
all other text unchanged (`Modelled from the spec:` the loop variable
"becomes resolvable as a bare token for the duration of each iteration's
body rendering", spec 4.1). -/
def substScan (ident val : List Char) : ScanState → List Char → List Char
  | .text, [] => []
  | .text, c :: rest =>
    if c = '{' then substScan ident val .textBrace rest
    else c :: substScan ident val .text rest
  | .textBrace, [] => ['{']
  | .textBrace, c :: rest =>
    if c = '{' then substScan ident val (.tok []) rest
    else '{' :: c :: substScan ident val .text rest
  | .tok acc, [] => '{' :: '{' :: acc
  | .tok acc, c :: rest =>
    if c = '}' then substScan ident val (.tokBrace acc) rest
    else substScan ident val (.tok (acc ++ [c])) rest
  | .tokBrace acc, [] => '{' :: '{' :: acc ++ ['}']
  | .tokBrace acc, c :: rest =>
    if c = '}' then
      (if trimChars acc = ident then val else '{' :: '{' :: acc ++ ['}', '}']) ++
        substScan ident val .text rest
    else substScan ident val (.tok (acc ++ ['}', c])) rest

/-- One loop iteration's body: the loop variable replaced by the decimal
form of the current integer. -/
def substIdent (body ident val : List Char) : List Char :=
  substScan ident val .text body

/-- Parse the text after `@for(` as `ident in range(a, b))`, returning the
identifier, the two integers and the text after the closing `))`. -/
def parseForHeader (l : List Char) : Option (List Char × Int × Int × List Char) :=
  let ident := l.takeWhile identChar
  if ident.isEmpty then none
  else
    match expectPrefix " in range(".data (l.drop ident.length) with
    | none => none
    | some l1 =>
      match parseIntPart (l1.dropWhile wsChar) with
      | none => none
      | some (a, l2) =>
        match expectPrefix [','] (l2.dropWhile wsChar) with
        | none => none
        | some l3 =>
          match parseIntPart (l3.dropWhile wsChar) with
          | none => none
          | some (b, l4) =>
            match expectPrefix "))".data (l4.dropWhile wsChar) with
            | none => none
            | some l5 => some (ident, a, b, l5)

theorem expectPrefix_length {p l r : List Char} (h : expectPrefix p l = some r) :
    r.length ≤ l.length := by
  rw [expectPrefix] at h
  split at h
  · simp at h
    subst h
    simp
  · simp at h

theorem parseNatPart_length {l : List Char} {n : Nat} {r : List Char}
    (h : parseNatPart l = some (n, r)) : r.length ≤ l.length := by
  rw [parseNatPart] at h
  split at h
  · simp at h
  · simp at h
    obtain ⟨_, h2⟩ := h
    subst h2
    simp

theorem parseIntPart_length {l : List Char} {n : Int} {r : List Char}
    (h : parseIntPart l = some (n, r)) : r.length ≤ l.length := by
  rw [parseIntPart] at h
  split at h
  · cases hp : parseNatPart l.tail with
    | none => rw [hp] at h; simp at h
    | some p =>
      rw [hp] at h
      simp at h
      obtain ⟨_, h2⟩ := h
      subst h2
      have h3 := parseNatPart_length (n := p.1) (r := p.2) (by rw [hp])
      have h4 : l.tail.length ≤ l.length := by cases l <;> simp
      omega
  · cases hp : parseNatPart l with
    | none => rw [hp] at h; simp at h
    | some p =>
      rw [hp] at h
      simp at h
      obtain ⟨_, h2⟩ := h
      subst h2
      exact parseNatPart_length (n := p.1) (r := p.2) (by rw [hp])

theorem dropWhile_length_le {p : Char → Bool} {l : List Char} :
    (l.dropWhile p).length ≤ l.length := by
  induction l with
  | nil => simp
  | cons c rest ih =>
    rw [List.dropWhile]
    split
    · simp only [List.length_cons]; omega
    · simp

theorem parseForHeader_length {l : List Char} {ident : List Char} {a b : Int}
    {r : List Char} (h : parseForHeader l = some (ident, a, b, r)) :
    r.length ≤ l.length := by
  simp only [parseForHeader] at h
  split at h
  · simp at h
  · split at h
    · simp at h
    · rename_i l1 h1
      split at h
      · simp at h
      · rename_i a2 l2 h2
        split at h
        · simp at h
        · rename_i l3 h3
          split at h
          · simp at h
          · rename_i b4 l4 h4
            split at h
            · simp at h
            · rename_i l5 h5
              simp at h
              obtain ⟨_, _, _, h8⟩ := h
              subst h8
              have e1 := expectPrefix_length h1
              have e2 := parseIntPart_length h2
              have e3 := expectPrefix_length h3
              have e4 := parseIntPart_length h4
              have e5 := expectPrefix_length h5
              have d1 : (l1.dropWhile wsChar).length ≤ l1.length := dropWhile_length_le
              have d2 : (l2.dropWhile wsChar).length ≤ l2.length := dropWhile_length_le
              have d3 : (l3.dropWhile wsChar).length ≤ l3.length := dropWhile_length_le
              have d4 : (l4.dropWhile wsChar).length ≤ l4.length := dropWhile_length_le
              have d5 : (l.drop (l.takeWhile identChar).length).length ≤ l.length := by simp
              omega

/-- Scanner of `TemplateEngine._parse_for_loop` (`Modelled from the spec:`
the method is absent from src/; spec 4.1): each well-formed
`@for(ident in range(a, b))body@endfor` block expands to one copy of the
body per integer of the half-open range, in increasing order, with the
bare loop-variable token substituted; all other text passes through
unchanged, and a malformed block is left as literal text. -/
def forScanAux : Nat → List Char → List Char
  | 0, l => l
  | fuel + 1, l =>
    match l with
    | [] => []
    | c :: rest =>
      if c = '@' ∧ rest.take 4 = "for(".data then
        match parseForHeader (rest.drop 4) with
        | some (ident, a, b, afterHeader) =>
          match findSub "@endfor".data afterHeader with
          | some (body, rest') =>
            ((rangeList a b).map
              (fun i => substIdent body ident (intToChars i))).flatten
              ++ forScanAux fuel rest'
          | none => c :: forScanAux fuel rest
        | none => c :: forScanAux fuel rest
      else c :: forScanAux fuel rest

/-- The `@for` scanner over a template: the fuel of `forScanAux` only
serves structural recursion; it starts strictly above the template length
and every recursive call is on a strictly shorter suffix. -/
def forScan (l : List Char) : List Char := forScanAux (l.length + 1) l

/-- `TemplateEngine._parse_for_loop` (`Modelled from the spec:` the method
is absent from src/): expand every `@for` block of the template; the
context argument is kept for signature fidelity but a `range` loop does
not consult it. -/
def parse_for_loop (template : String) (_ctx : TemplateContext) : String :=
  String.mk (forScan template.data)

/-- Collection elements of a `@foreach` target: a sequence iterates its
elements in order, a mapping iterates its values (spec 4.1); anything else
is not iterable. -/
def elemsOf : Value → Option (List Value)
  | .arr xs => some xs
  | .obj fs => some (fs.map (fun p => p.2))
  | _ => none

/-- Parse the text after `@foreach(` as `ident in namespace.path)`,
returning the identifier, the trimmed path and the text after `)`. -/
def parseForeachHeader (l : List Char) : Option (List Char × List Char × List Char) :=
  let ident := l.takeWhile identChar
  if ident.isEmpty then none
  else
    match expectPrefix " in ".data (l.drop ident.length) with
    | none => none
    | some l1 =>
      let path := l1.takeWhile (fun c => c ≠ ')')
      match expectPrefix [')'] (l1.drop path.length) with
      | none => none
      | some l2 => some (ident, trimChars path, l2)

theorem parseForeachHeader_length {l ident path r : List Char}
    (h : parseForeachHeader l = some (ident, path, r)) : r.length ≤ l.length := by
  simp only [parseForeachHeader] at h
  split at h
  · simp at h
  · split at h
    · simp at h
    · rename_i l1 h1
      split at h
      · simp at h
      · rename_i l2 h2
        simp at h
        obtain ⟨_, _, h3⟩ := h
        subst h3
        have e1 := expectPrefix_length h1
        have e2 := expectPrefix_length h2
        have d1 : (l.drop (l.takeWhile identChar).length).length ≤ l.length := by simp
        have d2 : (l1.drop (l1.takeWhile (fun c => c ≠ ')')).length).length ≤ l1.length := by
          simp
        omega

/-- Render one `@foreach` iteration body with the loop variable bound to
element `v`: the bare token becomes the element's string form, a dotted
token rooted at the loop variable accesses sub-fields of the element, and
every other token or character is left unchanged (`Modelled from the
spec:` spec 4.1 on `@foreach` bodies). -/
def substElemScan (ident : List Char) (v : Value) :
    ScanState → List Char → Except TemplateError (List Char)
  | .text, [] => .ok []
  | .text, c :: rest =>
    if c = '{' then substElemScan ident v .textBrace rest
    else (substElemScan ident v .text rest).map (c :: ·)
  | .textBrace, [] => .ok ['{']
  | .textBrace, c :: rest =>
    if c = '{' then substElemScan ident v (.tok []) rest
    else (substElemScan ident v .text rest).map (fun o => '{' :: c :: o)
  | .tok acc, [] => .ok ('{' :: '{' :: acc)
  | .tok acc, c :: rest =>
    if c = '}' then substElemScan ident v (.tokBrace acc) rest
    else substElemScan ident v (.tok (acc ++ [c])) rest
  | .tokBrace acc, [] => .ok ('{' :: '{' :: acc ++ ['}'])
  | .tokBrace acc, c :: rest =>
    if c = '}' then
      match splitDots (trimChars acc) with
      | s :: segs =>
        if s = ident then
          match walkPath (String.mk (trimChars acc)) v segs with
          | .error e => .error e
          | .ok w =>
            (substElemScan ident v .text rest).map ((valueToStr w).data ++ ·)
        else
          (substElemScan ident v .text rest).map
            (fun o => '{' :: '{' :: acc ++ '}' :: '}' :: o)
      | [] =>
        (substElemScan ident v .text rest).map
          (fun o => '{' :: '{' :: acc ++ '}' :: '}' :: o)
    else substElemScan ident v (.tok (acc ++ ['}', c])) rest

/-- Render the `@foreach` body once per collection element, concatenating
the results. -/
def renderElems (ident body : List Char) : List Value → Except TemplateError (List Char)
  | [] => .ok []
  | v :: vs =>
    match substElemScan ident v .text body with
    | .error e => .error e
    | .ok piece => (renderElems ident body vs).map (piece ++ ·)

/-- Scanner of `TemplateEngine._parse_foreach_loop` (`Modelled from the
spec:` the method is absent from src/; spec 4.1): each well-formed
`@foreach(ident in namespace.path)body@endforeach` block resolves its
target path, fails when the path does not resolve, fails with the
"expected array or object" condition when the target is not a sequence or
mapping, and otherwise expands the body once per element; all other text
passes through unchanged and a malformed block is left as literal text. -/
def foreachScan (ctx : TemplateContext) : List Char → Except TemplateError (List Char)
  | [] => .ok []
  | c :: rest =>
    if c = '@' ∧ rest.take 8 = "foreach(".data then
      match hh : parseForeachHeader (rest.drop 8) with
      | some (ident, path, afterHeader) =>
        match hf : findSub "@endforeach".data afterHeader with
        | some (body, rest') =>
          match resolve_placeholder path ctx with
          | .error e => .error e
          | .ok v =>
            match elemsOf v with
            | none => .error (.expectedCollection (String.mk path))
            | some elems =>
              match renderElems ident body elems with
              | .error e => .error e
              | .ok out => (foreachScan ctx rest').map (out ++ ·)
        | none => (foreachScan ctx rest).map (c :: ·)
      | none => (foreachScan ctx rest).map (c :: ·)
    else (foreachScan ctx rest).map (c :: ·)
termination_by l => l.length
decreasing_by
  · have e1 := findSub_length (by decide) hf
    have e2 := parseForeachHeader_length hh
    have e3 : (rest.drop 8).length ≤ rest.length := by simp
    simp
    omega
  · simp
  · simp
  · simp

/-- `TemplateEngine._parse_foreach_loop` (`Modelled from the spec:` the
method is absent from src/): expand every `@foreach` block of the
template against the context. -/
def parse_foreach_loop (template : String) (ctx : TemplateContext) :
    Except TemplateError String :=
  (foreachScan ctx template.data).map String.mk

/-- A comparison literal of an `@if` condition: a quoted string or a bare
number (spec 6). -/
inductive CondLit where
  | strLit (s : String)
  | numLit (n : Int)

/-- Parse a (trimmed) condition literal. -/
def parseCondLit (l : List Char) : Option CondLit :=
  if l.head? = some '"' ∧ l.getLast? = some '"' ∧ 2 ≤ l.length then
    some (.strLit (String.mk l.tail.dropLast))
  else
    match parseIntPart l with
    | some (n, []) => some (.numLit n)
    | _ => none

/-- Coerce a resolved value to a number for numeric comparison
(`Modelled from the spec:` "numeric literals compare numerically against
the resolved value coerced to number", spec 4.1). -/
def coerceNum : Value → Option Int
  | .num n => some n
  | .str s =>
    match parseIntPart s.data with
    | some (n, []) => some n
    | _ => none
  | .bool b => some (if b then 1 else 0)
  | _ => none

/-- Python-style truthiness of a resolved value: empty string, zero,
false, null and empty collections are false (spec 4.1). -/
def truthy : Value → Bool
  | .str s => !s.isEmpty
  | .num n => !(n == 0)
  | .bool b => b
  | .null => false
  | .arr xs => !xs.isEmpty
  | .obj fs => !fs.isEmpty

/-- The six comparison operators of the condition grammar. -/
inductive CmpOp where
  | eq | ne | gt | lt | ge | le

/-- Equality of a resolved value against a condition literal: string
literals compare as exact string equality, numeric literals numerically
after coercion. -/
def valueEqLit (v : Value) : CondLit → Bool
  | .strLit s =>
    match v with
    | .str t => t == s
    | _ => false
  | .numLit m =>
    match coerceNum v with
    | some n => n == m
    | none => false

/-- Numeric ordering of a resolved value against a condition literal;
ordering is defined only for numeric comparison (spec 4.1). -/
def valueNumCmp (v : Value) (lit : CondLit) (f : Int → Int → Bool) : Bool :=
  match lit, coerceNum v with
  | .numLit m, some n => f n m
  | _, _ => false

/-- Evaluate `lhs OP rhs` where `lhs` is a placeholder path and `rhs` a
literal; a path that fails to resolve or an unparsable literal evaluates
to false (soft failure). -/
def condCompare (ctx : TemplateContext) (lhs rhs : List Char) (op : CmpOp) : Bool :=
  match (resolve_placeholder (trimChars lhs) ctx).toOption,
      parseCondLit (trimChars rhs) with
  | some v, some lit =>
    match op with
    | .eq => valueEqLit v lit
    | .ne => !valueEqLit v lit
    | .gt => valueNumCmp v lit (fun n m => m < n)
    | .lt => valueNumCmp v lit (fun n m => n < m)
    | .ge => valueNumCmp v lit (fun n m => m ≤ n)
    | .le => valueNumCmp v lit (fun n m => n ≤ m)
  | _, _ => false

/-- `TemplateEngine._evaluate_condition` (`Modelled from the spec:` the
method is absent from src/; spec 4.1): a bare path is tested for
truthiness, `path OP literal` compares the resolved value against the
literal; a path that fails to resolve evaluates as false rather than
raising. -/
def evaluate_condition (cond : List Char) (ctx : TemplateContext) : Bool :=
  match findSub "==".data cond with
  | some (l, r) => condCompare ctx l r .eq
  | none =>
    match findSub "!=".data cond with
    | some (l, r) => condCompare ctx l r .ne
    | none =>
      match findSub ">=".data cond with
      | some (l, r) => condCompare ctx l r .ge
      | none =>
        match findSub "<=".data cond with
        | some (l, r) => condCompare ctx l r .le
        | none =>
          match findSub ">".data cond with
          | some (l, r) => condCompare ctx l r .gt
          | none =>
            match findSub "<".data cond with
            | some (l, r) => condCompare ctx l r .lt
            | none =>
              match (resolve_placeholder (trimChars cond) ctx).toOption with
              | some v => truthy v
              | none => false

/-- Scanner of `TemplateEngine._parse_control_blocks` (`Modelled from the
spec:` the method is absent from src/; spec 4.1): each well-formed
`@if(condition)...@else...@endif` block keeps its then-part when the
condition evaluates true and its else-part (empty when absent) otherwise,
recursively processing the kept part; all other text passes through
unchanged and a malformed block is left as literal text. -/
def ifScan (ctx : TemplateContext) : List Char → List Char
  | [] => []
  | c :: rest =>
    if c = '@' ∧ rest.take 3 = "if(".data then
      match hp : expectPrefix [')']
          ((rest.drop 3).drop ((rest.drop 3).takeWhile (fun c => c ≠ ')')).length) with
      | some after =>
        match hf : findSub "@endif".data after with
        | some (body, rest') =>
          match he : findSub "@else".data body with
          | some (tpart, epart) =>
            (if evaluate_condition
                (trimChars ((rest.drop 3).takeWhile (fun c => c ≠ ')'))) ctx then
              ifScan ctx tpart
            else ifScan ctx (epart.dropWhile wsChar)) ++ ifScan ctx rest'
          | none =>
            (if evaluate_condition
                (trimChars ((rest.drop 3).takeWhile (fun c => c ≠ ')'))) ctx then
              ifScan ctx body
            else []) ++ ifScan ctx rest'
        | none => c :: ifScan ctx rest
      | none => c :: ifScan ctx rest
    else c :: ifScan ctx rest
termination_by l => l.length
decreasing_by
  · have e1 := expectPrefix_length hp
    have e2 := findSub_eq_append hf
    have e3 := findSub_eq_append he
    have d1 : ((rest.drop 3).drop
        ((rest.drop 3).takeWhile (fun c => c ≠ ')')).length).length ≤ rest.length := by
      simp
    have d2 : body.length < after.length := by
      rw [e2]; simp
    have d3 : tpart.length ≤ body.length := by
      rw [e3]; simp
    simp
    omega
  · have e1 := expectPrefix_length hp
    have e2 := findSub_eq_append hf
    have e3 := findSub_eq_append he
    have d1 : ((rest.drop 3).drop
        ((rest.drop 3).takeWhile (fun c => c ≠ ')')).length).length ≤ rest.length := by
      simp
    have d2 : body.length < after.length := by
      rw [e2]; simp
    have d3 : epart.length ≤ body.length := by
      rw [e3]; simp; omega
    have d4 : (epart.dropWhile wsChar).length ≤ epart.length := dropWhile_length_le
    simp
    omega
  · have e1 := expectPrefix_length hp
    have e2 := findSub_length (by decide) hf
    have d1 : ((rest.drop 3).drop
        ((rest.drop 3).takeWhile (fun c => c ≠ ')')).length).length ≤ rest.length := by
      simp
    simp
    omega
  · have e1 := expectPrefix_length hp
    have e2 := findSub_eq_append hf
    have d1 : ((rest.drop 3).drop
        ((rest.drop 3).takeWhile (fun c => c ≠ ')')).length).length ≤ rest.length := by
      simp
    have d2 : body.length < after.length := by
      rw [e2]; simp
    simp
    omega
  · have e1 := expectPrefix_length hp
    have e2 := findSub_length (by decide) hf
    have d1 : ((rest.drop 3).drop
        ((rest.drop 3).takeWhile (fun c => c ≠ ')')).length).length ≤ rest.length := by
      simp
    simp
    omega
  · simp
  · simp
  · simp

/-- `TemplateEngine._parse_control_blocks` (`Modelled from the spec:` the
method is absent from src/): expand every `@if` block of the template
against the context. -/
def parse_control_blocks (template : String) (ctx : TemplateContext) : String :=
  String.mk (ifScan ctx template.data)

/-- `TemplateEngine.render_advanced` (`Modelled from the spec:` the method
is absent from src/; spec 4.1): directive blocks are expanded first
(`@for`, then `@foreach`, then `@if`), then ordinary placeholders are
resolved via the same engine as `render_basic`. -/
def render_advanced (template : String) (ctx : TemplateContext) :
    Except TemplateError String :=
  match foreachScan ctx (forScan template.data) with
  | .error e => .error e
  | .ok s2 => (scanStep ctx .text (ifScan ctx s2)).map String.mk

/-- Execution type tag (`mcipy.enums.ExecutionType`; the enum module is
absent from src/ — `Modelled from the spec:` the closed variant set of
spec section 3 as used by `models.py`). -/
inductive ExecutionType where
  | http | cli | file | text
deriving Repr, DecidableEq

/-- `models.FlagConfig`: a CLI flag bound to a source expression. -/
structure FlagConfig where
  from_ : String
  type : String

/-- `models.RetryConfig` for HTTP requests. -/
structure RetryConfig where
  attempts : Int
  backoff_ms : Int

/-- `models.HTTPBodyConfig`: body kind and content. -/
structure HTTPBodyConfig where
  type : String
  content : Value

/-- `models.ApiKeyAuth / BearerAuth / BasicAuth / OAuth2Auth`. -/
inductive AuthConfig where
  | apiKey (in_ name value : String)
  | bearer (token : String)
  | basicAuth (username password : String)
  | oauth2 (flow tokenUrl clientId clientSecret : String) (scopes : Option (List String))

/-- Fields of `models.HTTPExecutionConfig`. -/
structure HTTPConfigData where
  method : String
  url : String
  headers : Option (List (String × String))
  auth : Option AuthConfig
  params : Option (List (String × Value))
  body : Option HTTPBodyConfig
  timeout_ms : Int
  retries : Option RetryConfig

/-- Fields of `models.CLIExecutionConfig`. -/
structure CLIConfigData where
  command : String
  args : Option (List String)
  flags : Option (List (String × FlagConfig))
  cwd : Option String
  timeout_ms : Int

/-- Fields of `models.FileExecutionConfig`. -/
structure FileConfigData where
  path : String
  enableTemplating : Bool

/-- Fields of `models.TextExecutionConfig`. -/
structure TextConfigData where
  text : String

/-- The execution-config variants of `models.py` as a tagged union
(the Python source discriminates the pydantic subclasses by their `type`
field). -/
inductive ExecutionConfig where
  | http (c : HTTPConfigData)
  | cli (c : CLIConfigData)
  | file (c : FileConfigData)
  | text (c : TextConfigData)

/-- The `type` discriminator of a config variant. -/
def ExecutionConfig.type : ExecutionConfig → ExecutionType
  | .http _ => .http
  | .cli _ => .cli
  | .file _ => .file
  | .text _ => .text

/-- Python `type(config).__name__`, as used in the executors' type-check
error messages. -/
def ExecutionConfig.typeName : ExecutionConfig → String
  | .http _ => "HTTPExecutionConfig"
  | .cli _ => "CLIExecutionConfig"
  | .file _ => "FileExecutionConfig"
  | .text _ => "TextExecutionConfig"

/-- The result envelope as the executors construct it
(`ExecutionResult(isError=..., content=..., error=...)` in
`executors/base.py` and `executors/file_executor.py`, asserted on
field-by-field in `tests/unit/executors/test_base.py`).  The `models.py`
of this snapshot declares a later MCP-wrapped result model with a
mandatory `result` field that these executors do not construct. -/
structure ExecutionResult where
  isError : Bool
  content : Option String
  error : Option String
deriving Repr, DecidableEq

/-- `BaseExecutor._format_error`: converts a failure (here: its Python
`str(e)` message) into a standardized error result. -/
def format_error (msg : String) : ExecutionResult :=
  { isError := true, content := none, error := some msg }

/-- `BaseExecutor._handle_timeout`: default 30 s for non-positive values,
otherwise milliseconds converted to seconds rounding up with a minimum of
1 s (`Int.ediv` is Python's floor division `//` for the positive divisor
used here). -/
def handle_timeout (timeout_ms : Int) : Int :=
  if timeout_ms ≤ 0 then 30
  else max 1 ((timeout_ms + 999).ediv 1000)

/-- A file-system entry: a regular file with text content, or a non-file
path (directory etc.).  The file system itself is a partial map from path
strings. -/
inductive FSEntry where
  | file (content : String)
  | dir

/-- `FileExecutor._read_file`: missing path and non-regular-file are the
two failure messages raised there; reading a regular file yields its
content. -/
def read_file (fs : String → Option FSEntry) (path : String) : Except String String :=
  match fs path with
  | none => .error ("File not found: " ++ path)
  | some .dir => .error ("Path is not a file: " ++ path)
  | some (.file c) => .ok c

/-- `FileExecutor._resolve_path`: basic template substitution on the
configured path. -/
def resolve_path (path : String) (ctx : TemplateContext) : Except TemplateError String :=
  render_basic path ctx

/-- `FileExecutor._parse_content`: advanced templating of the file content
when enabled, identity otherwise. -/
def parse_content (content : String) (ctx : TemplateContext)
    (parse_placeholders : Bool) : Except TemplateError String :=
  if parse_placeholders then render_advanced content ctx else .ok content

/-- `FileExecutor.execute`: type-check the config, resolve the templated
path, read the file, optionally template the content; every failure is
converted by `_format_error` into an error result. -/
def FileExecutor.execute (fs : String → Option FSEntry) (config : ExecutionConfig)
    (ctx : TemplateContext) : ExecutionResult :=
  match config with
  | .file fc =>
    match resolve_path fc.path ctx with
    | .error e => format_error e.message
    | .ok p =>
      match read_file fs p with
      | .error msg => format_error msg
      | .ok content =>
        match parse_content content ctx fc.enableTemplating with
        | .error e => format_error e.message
        | .ok parsed => { isError := false, content := some parsed, error := none }
  | other => format_error ("Expected FileExecutionConfig, got " ++ other.typeName)

/-- `ToolManagerError`: the manager's exception type; `toolNotFound` and
`missingProperties` are the two raise sites of `ToolManager.execute`. -/
inductive ToolManagerError where
  | toolNotFound (name : String)
  | missingProperties (toolName : String) (required missing : List String)
deriving Repr, DecidableEq

/-- `models.Tool` (presentation-only `annotations` omitted): name,
disabled flag, optional description, optional input JSON-schema (a JSON
object), execution config, path-access overrides and tags. -/
structure Tool where
  name : String
  disabled : Bool
  description : Option String
  inputSchema : Option (List (String × Value))
  execution : ExecutionConfig
  enableAnyPaths : Bool
  directoryAllowList : List String
  tags : List String

/-- `ToolManager` state after `__init__`: the loaded tools (main schema
plus toolsets, in load order, disabled ones included) and the
tool-name → toolset-name registry. -/
structure ToolManager where
  all_tools : List Tool
  tool_to_toolset : List (String × String)

/-- `ToolManager.get_tool`: lookup in `_tool_map`, the dict comprehension
over enabled tools — for duplicate names the last enabled tool wins,
hence the find-first over the reversed enabled list. -/
def ToolManager.get_tool (tm : ToolManager) (name : String) : Option Tool :=
  ((tm.all_tools.filter (fun t => !t.disabled)).reverse).find? (fun t => t.name == name)

/-- `ToolManager.list_tools`: all tools with the disabled ones excluded. -/
def ToolManager.list_tools (tm : ToolManager) : List Tool :=
  tm.all_tools.filter (fun t => !t.disabled)

/-- `ToolManager.filter_tools`: enabled tools, kept if named in `only`
(when given), dropped if named in `without` (when given). -/
def ToolManager.filter_tools (tm : ToolManager)
    (only without : Option (List String)) : List Tool :=
  let tools := tm.all_tools.filter (fun t => !t.disabled)
  let tools := match only with
    | some o => tools.filter (fun t => o.contains t.name)
    | none => tools
  match without with
  | some w => tools.filter (fun t => !w.contains t.name)
  | none => tools

/-- `ToolManager.tags`: enabled tools having at least one of the given
tags; an empty tag list selects nothing. -/
def ToolManager.tags (tm : ToolManager) (tags : List String) : List Tool :=
  let tools := tm.all_tools.filter (fun t => !t.disabled)
  if tags.isEmpty then []
  else tools.filter (fun t => t.tags.any (fun tag => tags.contains tag))

/-- `ToolManager.withoutTags`: enabled tools having none of the given
tags; an empty tag list keeps all enabled tools. -/
def ToolManager.withoutTags (tm : ToolManager) (tags : List String) : List Tool :=
  let tools := tm.all_tools.filter (fun t => !t.disabled)
  if tags.isEmpty then tools
  else tools.filter (fun t => !t.tags.any (fun tag => tags.contains tag))

/-- `ToolManager.toolsets`: enabled tools registered by one of the named
toolsets; an empty name list selects nothing. -/
def ToolManager.toolsets (tm : ToolManager) (toolset_names : List String) : List Tool :=
  if toolset_names.isEmpty then []
  else
    tm.all_tools.filter (fun t =>
      !t.disabled &&
        (match List.lookup t.name tm.tool_to_toolset with
         | some ts => toolset_names.contains ts
         | none => false))

/-- `input_schema.get("required", [])`: the `required` entry of the input
schema when it is a list, the empty list otherwise. -/
def requiredOf (schema : List (String × Value)) : List Value :=
  match List.lookup "required" schema with
  | some (.arr vs) => vs
  | _ => []

/-- Python `prop in properties` for a required-list entry against the
string-keyed properties dict: only a string entry can match a key. -/
def propHasKey (properties : List (String × Value)) : Value → Bool
  | .str s => (List.lookup s properties).isSome
  | _ => false

/-- `ToolManager._validate_input_properties`: the only check performed is
that every name in the schema's `required` list is present among the
supplied properties. -/
def validate_input_properties (tool : Tool) (properties : List (String × Value)) :
    Option ToolManagerError :=
  match tool.inputSchema with
  | none => none
  | some schema =>
    let required := requiredOf schema
    if required.isEmpty then none
    else
      let missing := required.filter (fun v => !propHasKey properties v)
      if missing.isEmpty then none
      else
        some (.missingProperties tool.name (required.map valueToStr)
          (missing.map valueToStr))

/-- The required-list entries of a tool's schema that are missing from the
supplied properties, after the `execute`-side guard that skips validation
for an absent or empty schema (used to state the raise condition). -/
def requiredMissing (tool : Tool) (properties : List (String × Value)) : List Value :=
  match tool.inputSchema with
  | none => []
  | some schema =>
    if schema.isEmpty then []
    else (requiredOf schema).filter (fun v => !propHasKey properties v)

/-- `ToolManager.execute`: raises (returns `.error`) for an unknown tool
name and for missing required properties; otherwise builds the context
and dispatches to the executor selected by the config's type tag.  The
executors are modelled by the total `dispatch` argument (they return a
result for every input — the never-raises executor contract); the
path-validation context of the Python code is omitted, the modelled
executor does not consult it. -/
def ToolManager.execute (tm : ToolManager)
    (dispatch : ExecutionConfig → TemplateContext → ExecutionResult)
    (tool_name : String) (properties env_vars : List (String × Value)) :
    Except ToolManagerError ExecutionResult :=
  match tm.get_tool tool_name with
  | none => .error (.toolNotFound tool_name)
  | some tool =>
    let check := match tool.inputSchema with
      | some schema =>
        if schema.isEmpty then none else validate_input_properties tool properties
      | none => none
    match check with
    | some err => .error err
    | none => .ok (dispatch tool.execution (build_context properties env_vars))

theorem string_mk_data (s : String) : String.mk s.data = s := rfl

theorem append_ne_empty (a b : String) (h : a.data ≠ []) : a ++ b ≠ "" := by
  intro hc
  have h2 := congrArg String.data hc
  rw [String.data_append] at h2
  exact h (List.append_eq_nil.mp h2).1

theorem TemplateError.message_ne_empty (e : TemplateError) : e.message ≠ "" := by
  cases e with
  | unknownRoot p => exact append_ne_empty _ _ (by decide)
  | notFound p => exact append_ne_empty _ _ (by decide)
  | nonDictAccess p =>
    show ("Cannot resolve " ++ p) ++ _ ≠ ""
    apply append_ne_empty
    rw [String.data_append]
    intro hc
    exact absurd (List.append_eq_nil.mp hc).1 (by decide)
  | expectedCollection p =>
    show ("Cannot iterate " ++ p) ++ _ ≠ ""
    apply append_ne_empty
    rw [String.data_append]
    intro hc
    exact absurd (List.append_eq_nil.mp hc).1 (by decide)

/-- Every outcome of `FileExecutor.execute` is either `_format_error` of a
non-empty message or a success envelope with content and no error. -/
theorem fileExecute_shape (fs : String → Option FSEntry) (config : ExecutionConfig)
    (ctx : TemplateContext) :
    (∃ m, m ≠ "" ∧ FileExecutor.execute fs config ctx = format_error m) ∨
    (∃ s, FileExecutor.execute fs config ctx =
      { isError := false, content := some s, error := none }) := by
  cases config with
  | file fc =>
    cases hr : resolve_path fc.path ctx with
    | error e =>
      exact .inl ⟨e.message, e.message_ne_empty, by simp [FileExecutor.execute, hr]⟩
    | ok p =>
      cases hf : read_file fs p with
      | error msg =>
        refine .inl ⟨msg, ?_, by simp [FileExecutor.execute, hr, hf]⟩
        rw [read_file] at hf
        cases hfs : fs p with
        | none =>
          rw [hfs] at hf
          cases hf
          exact append_ne_empty _ _ (by decide)
        | some entry =>
          cases entry with
          | file c => rw [hfs] at hf; cases hf
          | dir =>
            rw [hfs] at hf
            cases hf
            exact append_ne_empty _ _ (by decide)
      | ok content =>
        cases hp : parse_content content ctx fc.enableTemplating with
        | error e =>
          exact .inl ⟨e.message, e.message_ne_empty,
            by simp [FileExecutor.execute, hr, hf, hp]⟩
        | ok parsed => exact .inr ⟨parsed, by simp [FileExecutor.execute, hr, hf, hp]⟩
  | http c =>
    exact .inl ⟨_, append_ne_empty _ _ (by decide), rfl⟩
  | cli c =>
    exact .inl ⟨_, append_ne_empty _ _ (by decide), rfl⟩
  | text c =>
    exact .inl ⟨_, append_ne_empty _ _ (by decide), rfl⟩

/-- **C4** Result-envelope invariant: every `ExecutionResult` produced by
the file executor satisfies: when `isError` is true the content is absent
and the error message is present and non-empty; when `isError` is false
the error is absent. -/
theorem result_envelope_invariant (fs : String → Option FSEntry)
    (config : ExecutionConfig) (ctx : TemplateContext) :
    ((FileExecutor.execute fs config ctx).isError = true →
      (FileExecutor.execute fs config ctx).content = none ∧
      ∃ m, (FileExecutor.execute fs config ctx).error = some m ∧ m ≠ "") ∧
    ((FileExecutor.execute fs config ctx).isError = false →
      (FileExecutor.execute fs config ctx).error = none) := by
  rcases fileExecute_shape fs config ctx with ⟨m, hm, he⟩ | ⟨s, he⟩
  · rw [he]
    constructor
    · intro _
      exact ⟨rfl, m, rfl, hm⟩
    · intro hfalse
      simp [format_error] at hfalse
  · rw [he]
    constructor
    · intro htrue
      simp at htrue
    · intro _
      rfl

/-- **C4 witness**: a missing file yields an error envelope with no
content and a non-empty message; a successful read yields no error. -/
theorem result_envelope_invariant_witness :
    ((FileExecutor.execute (fun _ => none)
        (.file { path := "/nope", enableTemplating := false })
        (build_context [] [])).content = none ∧
      ∃ m, (FileExecutor.execute (fun _ => none)
        (.file { path := "/nope", enableTemplating := false })
        (build_context [] [])).error = some m ∧ m ≠ "") ∧
    (FileExecutor.execute (fun p => if p = "/a" then some (.file "hi") else none)
        (.file { path := "/a", enableTemplating := false })
        (build_context [] [])).error = none := by
  constructor
  · exact (result_envelope_invariant (fun _ => none)
      (.file { path := "/nope", enableTemplating := false })
      (build_context [] [])).1 (by rfl)
  · exact (result_envelope_invariant (fun p => if p = "/a" then some (.file "hi") else none)
      (.file { path := "/a", enableTemplating := false })
      (build_context [] [])).2 (by rfl)

/-- **C3** The file executor never raises: its result is a total function
of config, context and file system, and each failure mode — wrong config
type, template-resolution failure on the path, missing file, path that is
not a regular file, template failure on the content — is converted into
the returned error result produced by `_format_error`. -/
theorem file_executor_never_raises (fs : String → Option FSEntry)
    (config : ExecutionConfig) (ctx : TemplateContext) :
    ((∀ fc, config ≠ ExecutionConfig.file fc) →
      FileExecutor.execute fs config ctx =
        format_error ("Expected FileExecutionConfig, got " ++ config.typeName)) ∧
    (∀ fc, config = ExecutionConfig.file fc →
      (∀ e, resolve_path fc.path ctx = .error e →
        FileExecutor.execute fs config ctx = format_error e.message) ∧
      (∀ p, resolve_path fc.path ctx = .ok p →
        (fs p = none →
          FileExecutor.execute fs config ctx =
            format_error ("File not found: " ++ p)) ∧
        (fs p = some .dir →
          FileExecutor.execute fs config ctx =
            format_error ("Path is not a file: " ++ p)) ∧
        (∀ content, fs p = some (.file content) →
          ∀ e, parse_content content ctx fc.enableTemplating = .error e →
            FileExecutor.execute fs config ctx = format_error e.message))) := by
  constructor
  · intro hnot
    cases config with
    | file fc => exact absurd rfl (hnot fc)
    | http c => rfl
    | cli c => rfl
    | text c => rfl
  · intro fc heq
    subst heq
    constructor
    · intro e he
      simp [FileExecutor.execute, he]
    · intro p hp
      refine ⟨?_, ?_, ?_⟩
      · intro hfs
        simp [FileExecutor.execute, hp, read_file, hfs]
      · intro hfs
        simp [FileExecutor.execute, hp, read_file, hfs]
      · intro content hfs e hpc
        simp [FileExecutor.execute, hp, read_file, hfs, hpc]

/-- **C3 witness**: concrete failures — wrong config type, unresolvable
placeholder in the path, missing file, directory path — each produce the
corresponding error result. -/
theorem file_executor_never_raises_witness :
    FileExecutor.execute (fun _ => none) (.text { text := "x" })
      (build_context [] []) =
      format_error "Expected FileExecutionConfig, got TextExecutionConfig" ∧
    FileExecutor.execute (fun _ => none)
      (.file { path := "/d/\x7b\x7bprops.name\x7d\x7d", enableTemplating := false })
      (build_context [] []) =
      format_error "Placeholder path not found: props.name" ∧
    FileExecutor.execute (fun _ => none)
      (.file { path := "/nope", enableTemplating := false })
      (build_context [] []) = format_error "File not found: /nope" ∧
    FileExecutor.execute (fun p => if p = "/d" then some .dir else none)
      (.file { path := "/d", enableTemplating := false })
      (build_context [] []) = format_error "Path is not a file: /d" := by
  refine ⟨?_, ?_, ?_, ?_⟩
  · exact (file_executor_never_raises (fun _ => none) (.text { text := "x" })
      (build_context [] [])).1 (by intro fc h; cases h)
  · exact ((file_executor_never_raises (fun _ => none)
      (.file { path := "/d/\x7b\x7bprops.name\x7d\x7d", enableTemplating := false })
      (build_context [] [])).2 _ rfl).1 (.notFound "props.name") (by rfl)
  · exact (((file_executor_never_raises (fun _ => none)
      (.file { path := "/nope", enableTemplating := false })
      (build_context [] [])).2 _ rfl).2 "/nope" (by rfl)).1 (by rfl)
  · exact (((file_executor_never_raises (fun p => if p = "/d" then some .dir else none)
      (.file { path := "/d", enableTemplating := false })
      (build_context [] [])).2 _ rfl).2 "/d" (by rfl)).2.1 (by rfl)

/-- **C6** Timeout conversion: non-positive millisecond values give the
default 30 seconds; every positive value gives the ceiling of
`timeout_ms / 1000` in whole seconds (the unique `s` with
`1000 * (s - 1) < timeout_ms ≤ 1000 * s`), hence at least 1 second. -/
theorem handle_timeout_spec (timeout_ms : Int) :
    (timeout_ms ≤ 0 → handle_timeout timeout_ms = 30) ∧
    (1 ≤ timeout_ms →
      1 ≤ handle_timeout timeout_ms ∧
      1000 * (handle_timeout timeout_ms - 1) < timeout_ms ∧
      timeout_ms ≤ 1000 * handle_timeout timeout_ms) := by
  constructor
  · intro h
    simp [handle_timeout, h]
  · intro h
    have hn : ¬ timeout_ms ≤ 0 := by omega
    rw [handle_timeout, if_neg hn]
    have hd := Int.ediv_add_emod (timeout_ms + 999) 1000
    have hr1 : 0 ≤ (timeout_ms + 999) % 1000 := Int.emod_nonneg _ (by norm_num)
    have hr2 : (timeout_ms + 999) % 1000 < 1000 := Int.emod_lt_of_pos _ (by norm_num)
    have hq : (timeout_ms + 999).ediv 1000 = (timeout_ms + 999) / 1000 := rfl
    rw [hq]
    rcases max_cases 1 ((timeout_ms + 999) / 1000) with ⟨hmax, hle⟩ | ⟨hmax, hlt⟩ <;>
      rw [hmax] <;> omega

/-- **C6 witness**: `-5` ms gives the default 30 s; `1500` ms gives 2 s
(the ceiling), within the stated bounds; `1` ms gives 1 s. -/
theorem handle_timeout_spec_witness :
    handle_timeout (-5) = 30 ∧
    (1 ≤ handle_timeout 1500 ∧ 1000 * (handle_timeout 1500 - 1) < 1500 ∧
      1500 ≤ 1000 * handle_timeout 1500) ∧
    handle_timeout 1500 = 2 ∧ handle_timeout 1 = 1 := by
  refine ⟨(handle_timeout_spec (-5)).1 (by norm_num),
    (handle_timeout_spec 1500).2 (by norm_num), by decide, by decide⟩

/-- The input-schema check performed by `ToolManager.execute` succeeds
exactly when no required property is missing. -/
theorem execute_check_eq_none (tool : Tool) (properties : List (String × Value)) :
    (match tool.inputSchema with
      | some schema =>
        if schema.isEmpty then none else validate_input_properties tool properties
      | none => none) = none ↔ requiredMissing tool properties = [] := by
  cases hs : tool.inputSchema with
  | none => simp [requiredMissing, hs]
  | some schema =>
    by_cases he : schema.isEmpty
    · simp [requiredMissing, hs, he]
    · simp only [requiredMissing, hs, he, if_false, if_neg he]
      rw [validate_input_properties, hs]
      by_cases hreq : (requiredOf schema).isEmpty
      · have : requiredOf schema = [] := List.isEmpty_iff.mp hreq
        simp [hreq, this]
      · simp only [hreq, if_false, if_neg hreq]
        by_cases hmiss :
            ((requiredOf schema).filter (fun v => !propHasKey properties v)).isEmpty
        · have := List.isEmpty_iff.mp hmiss
          simp [hmiss, this]
        · have : (requiredOf schema).filter (fun v => !propHasKey properties v) ≠ [] := by
            intro hc
            rw [hc] at hmiss
            simp at hmiss
          simp [hmiss, this]

/-- **C5** `ToolManager.execute` raises a `ToolManagerError` exactly when
the tool name does not resolve to a registered tool or a required property
of the non-empty input schema is absent from the supplied properties;
otherwise it returns the dispatched executor's result.  Required-field
presence is the only input-schema check: the raise condition depends on
the schema only through `requiredMissing`. -/
theorem tool_manager_execute_raises_iff (tm : ToolManager)
    (dispatch : ExecutionConfig → TemplateContext → ExecutionResult)
    (name : String) (properties env_vars : List (String × Value)) :
    ((∃ e, tm.execute dispatch name properties env_vars = .error e) ↔
      (tm.get_tool name = none ∨
        ∃ tool, tm.get_tool name = some tool ∧ requiredMissing tool properties ≠ [])) ∧
    (tm.get_tool name = none →
      tm.execute dispatch name properties env_vars = .error (.toolNotFound name)) ∧
    (∀ tool, tm.get_tool name = some tool → requiredMissing tool properties = [] →
      tm.execute dispatch name properties env_vars =
        .ok (dispatch tool.execution (build_context properties env_vars))) := by
  cases hg : tm.get_tool name with
  | none =>
    refine ⟨?_, ?_, ?_⟩
    · simp [ToolManager.execute, hg]
    · intro _
      simp [ToolManager.execute, hg]
    · intro tool htool
      simp at htool
  | some tool =>
    have hcheck := execute_check_eq_none tool properties
    cases hc : (match tool.inputSchema with
      | some schema =>
        if schema.isEmpty then none else validate_input_properties tool properties
      | none => none) with
    | some err =>
      refine ⟨?_, ?_, ?_⟩
      · constructor
        · intro _
          refine .inr ⟨tool, rfl, ?_⟩
          intro hmiss
          have := hcheck.mpr hmiss
          rw [hc] at this
          cases this
        · intro _
          exact ⟨err, by simp [ToolManager.execute, hg, hc]⟩
      · intro hnone
        simp at hnone
      · intro tool2 htool2 hmiss2
        have hi := Option.some.inj htool2
        subst hi
        have := hcheck.mpr hmiss2
        rw [hc] at this
        cases this
    | none =>
      have hmiss := hcheck.mp hc
      refine ⟨?_, ?_, ?_⟩
      · constructor
        · rintro ⟨e, he⟩
          rw [ToolManager.execute, hg] at he
          simp only [hc] at he
          cases he
        · rintro (hnone | ⟨tool2, htool2, hne2⟩)
          · simp at hnone
          · have hi := Option.some.inj htool2
            subst hi
            exact absurd hmiss hne2
      · intro hnone
        simp at hnone
      · intro tool2 htool2 _
        have hi := Option.some.inj htool2
        subst hi
        simp [ToolManager.execute, hg, hc]

/-- Witness fixture: a registered tool whose input schema requires the
property `name`. -/
def greetTool : Tool where
  name := "greet"
  disabled := false
  description := none
  inputSchema := some [("required", Value.arr [Value.str "name"])]
  execution := ExecutionConfig.text { text := "hi" }
  enableAnyPaths := false
  directoryAllowList := []
  tags := []

/-- Witness fixture: a manager holding only `greetTool`. -/
def tmGreet : ToolManager := { all_tools := [greetTool], tool_to_toolset := [] }

/-- Witness fixture: an executor dispatch that always succeeds. -/
def okDispatch : ExecutionConfig -> TemplateContext -> ExecutionResult :=
  fun _ _ => { isError := false, content := some "ok", error := none }

/-- **C5 witness**: unknown tool name raises tool-not-found; a tool whose
schema requires `name` raises when `name` is absent and dispatches when it
is supplied. -/
theorem tool_manager_execute_raises_iff_witness :
    tmGreet.execute okDispatch "nope" [] [] = .error (.toolNotFound "nope") ∧
    (∃ e, tmGreet.execute okDispatch "greet" [] [] = .error e) ∧
    tmGreet.execute okDispatch "greet" [("name", .str "Bob")] [] =
      .ok { isError := false, content := some "ok", error := none } := by
  refine ⟨?_, ?_, ?_⟩
  · exact (tool_manager_execute_raises_iff tmGreet okDispatch "nope" [] []).2.1 (by rfl)
  · refine (tool_manager_execute_raises_iff tmGreet okDispatch "greet" [] []).1.mpr ?_
    refine .inr ⟨greetTool, by rfl, ?_⟩
    rw [show requiredMissing greetTool [] = [Value.str "name"] from rfl]
    exact List.cons_ne_nil _ _
  · exact (tool_manager_execute_raises_iff tmGreet okDispatch "greet"
      [("name", .str "Bob")] []).2.2 greetTool (by rfl) (by rfl)

/-- **C10** Disabled tools are invisible to every `ToolManager`
operation: `get_tool` never returns a disabled tool, a disabled tool is
never an element of `list_tools`, `filter_tools`, `tags`, `withoutTags`
or `toolsets`, and (under the registry invariant of unique tool names)
`execute` on a disabled tool's name raises exactly the tool-not-found
error of an unregistered name. -/
theorem disabled_tools_invisible (tm : ToolManager) (t : Tool)
    (hmem : t ∈ tm.all_tools) (hdis : t.disabled = true) :
    (∀ name u, tm.get_tool name = some u → u.disabled = false) ∧
    t ∉ tm.list_tools ∧
    (∀ only without, t ∉ tm.filter_tools only without) ∧
    (∀ tg, t ∉ tm.tags tg) ∧
    (∀ tg, t ∉ tm.withoutTags tg) ∧
    (∀ ns, t ∉ tm.toolsets ns) ∧
    ((tm.all_tools.map Tool.name).Nodup →
      tm.get_tool t.name = none ∧
      ∀ dispatch properties env_vars,
        tm.execute dispatch t.name properties env_vars =
          .error (.toolNotFound t.name)) := by
  have henabled : ∀ name u, tm.get_tool name = some u →
      u.disabled = false ∧ u ∈ tm.all_tools ∧ u.name = name := by
    intro name u h
    rw [ToolManager.get_tool] at h
    have hm := List.mem_of_find?_eq_some h
    rw [List.mem_reverse, List.mem_filter] at hm
    have hp := List.find?_some h
    refine ⟨by simpa using hm.2, hm.1, by simpa using hp⟩
  refine ⟨fun name u h => (henabled name u h).1, ?_, ?_, ?_, ?_, ?_, ?_⟩
  · intro hmt
    rw [ToolManager.list_tools, List.mem_filter] at hmt
    simp [hdis] at hmt
  · intro only without hmt
    rw [ToolManager.filter_tools.eq_def] at hmt
    cases only with
    | none =>
      cases without with
      | none => simp [List.mem_filter, hdis] at hmt
      | some w => simp [List.mem_filter, hdis] at hmt
    | some o =>
      cases without with
      | none => simp [List.mem_filter, hdis] at hmt
      | some w => simp [List.mem_filter, hdis] at hmt
  · intro tg hmt
    rw [ToolManager.tags] at hmt
    split at hmt
    · simp at hmt
    · simp [List.mem_filter, hdis] at hmt
  · intro tg hmt
    rw [ToolManager.withoutTags] at hmt
    split at hmt
    · simp [List.mem_filter, hdis] at hmt
    · simp [List.mem_filter, hdis] at hmt
  · intro ns hmt
    rw [ToolManager.toolsets] at hmt
    split at hmt
    · simp at hmt
    · simp only [List.mem_filter] at hmt
      have := hmt.2
      simp [hdis] at this
  · intro hnd
    have hgnone : tm.get_tool t.name = none := by
      cases hu : tm.get_tool t.name with
      | none => rfl
      | some u =>
        obtain ⟨hu1, hu2, hu3⟩ := henabled t.name u hu
        have hut : u = t := List.inj_on_of_nodup_map hnd hu2 hmem hu3
        rw [hut] at hu1
        rw [hdis] at hu1
        cases hu1
    refine ⟨hgnone, ?_⟩
    intro dispatch properties env_vars
    simp [ToolManager.execute, hgnone]

/-- Witness fixture: a disabled tool. -/
def offTool : Tool where
  name := "off"
  disabled := true
  description := none
  inputSchema := none
  execution := ExecutionConfig.text { text := "hidden" }
  enableAnyPaths := false
  directoryAllowList := []
  tags := ["t1"]

/-- Witness fixture: a manager holding one enabled and one disabled
tool. -/
def tmMixed : ToolManager :=
  { all_tools := [greetTool, offTool], tool_to_toolset := [("off", "setA")] }

/-- **C10 witness**: in a two-tool registry the disabled tool is invisible
to listing, filtering and lookup, and executing it raises tool-not-found. -/
theorem disabled_tools_invisible_witness :
    offTool ∉ tmMixed.list_tools ∧
    offTool ∉ tmMixed.filter_tools (some ["off", "greet"]) none ∧
    offTool ∉ tmMixed.tags ["t1"] ∧
    offTool ∉ tmMixed.withoutTags ["zzz"] ∧
    offTool ∉ tmMixed.toolsets ["setA"] ∧
    tmMixed.get_tool "off" = none ∧
    tmMixed.execute okDispatch "off" [] [] = .error (.toolNotFound "off") := by
  have h := disabled_tools_invisible tmMixed offTool
    (List.mem_cons_of_mem _ (List.mem_cons_self _ _)) (by rfl)
  have hnd : (tmMixed.all_tools.map Tool.name).Nodup := by decide
  obtain ⟨hget, hexec⟩ := h.2.2.2.2.2.2 hnd
  exact ⟨h.2.1, h.2.2.1 (some ["off", "greet"]) none, h.2.2.2.1 ["t1"],
    h.2.2.2.2.1 ["zzz"], h.2.2.2.2.2.1 ["setA"], hget, hexec okDispatch [] []⟩

theorem dropWhile_eq_self_of {p : Char → Bool} {l : List Char}
    (h : ∀ c ∈ l, p c = false) : l.dropWhile p = l := by
  cases l with
  | nil => rfl
  | cons c rest =>
    rw [List.dropWhile_cons, h c (by simp)]
    simp

theorem trimChars_eq_self {l : List Char} (h : ∀ c ∈ l, wsChar c = false) :
    trimChars l = l := by
  rw [trimChars, dropWhile_eq_self_of h,
    dropWhile_eq_self_of (fun c hc => h c (List.mem_reverse.mp hc)),
    List.reverse_reverse]

theorem splitDots_no_dot {l : List Char} (h : ∀ c ∈ l, c ≠ '.') :
    splitDots l = [l] := by
  induction l with
  | nil => rfl
  | cons c rest ih =>
    have step : splitDots (c :: rest) =
        if c = '.' then [] :: splitDots rest
        else match splitDots rest with
          | [] => [[c]]
          | s :: ss => (c :: s) :: ss := rfl
    rw [step, if_neg (h c (by simp)), ih (fun d hd => h d (by simp [hd]))]

theorem splitDots_append {a : List Char} (b : List Char)
    (ha : ∀ c ∈ a, c ≠ '.') : splitDots (a ++ '.' :: b) = a :: splitDots b := by
  induction a with
  | nil =>
    have step : splitDots ('.' :: b) = [] :: splitDots b := by
      rw [show splitDots ('.' :: b) =
        if '.' = '.' then [] :: splitDots b
        else match splitDots b with
          | [] => [['.']]
          | s :: ss => ('.' :: s) :: ss from rfl]
      simp
    simpa using step
  | cons c a' ih =>
    rw [List.cons_append]
    have step : splitDots (c :: (a' ++ '.' :: b)) =
        if c = '.' then [] :: splitDots (a' ++ '.' :: b)
        else match splitDots (a' ++ '.' :: b) with
          | [] => [[c]]
          | s :: ss => (c :: s) :: ss := rfl
    rw [step, if_neg (ha c (by simp)), ih (fun d hd => ha d (by simp [hd]))]

theorem scanStep_text_step (ctx : TemplateContext) (c : Char) (rest : List Char)
    (h : c ≠ '{') :
    scanStep ctx .text (c :: rest) = (scanStep ctx .text rest).map (c :: ·) := by
  have step : scanStep ctx .text (c :: rest) =
      if c = '{' then scanStep ctx .textBrace rest
      else (scanStep ctx .text rest).map (c :: ·) := rfl
  rw [step, if_neg h]

theorem scanStep_text_append (ctx : TemplateContext) (p rest : List Char)
    (h : ∀ c ∈ p, c ≠ '{') :
    scanStep ctx .text (p ++ rest) =
      (scanStep ctx .text rest).map (fun o => p ++ o) := by
  induction p with
  | nil =>
    rw [List.nil_append]
    cases scanStep ctx .text rest <;> simp [Except.map]
  | cons c p' ih =>
    rw [List.cons_append, scanStep_text_step ctx c _ (h c (by simp))]
    rw [ih (fun d hd => h d (by simp [hd]))]
    cases scanStep ctx .text rest <;> simp [Except.map]

theorem scanStep_tok_step (ctx : TemplateContext) (acc : List Char) (c : Char)
    (rest : List Char) (h : c ≠ '}') :
    scanStep ctx (.tok acc) (c :: rest) = scanStep ctx (.tok (acc ++ [c])) rest := by
  have step : scanStep ctx (.tok acc) (c :: rest) =
      if c = '}' then scanStep ctx (.tokBrace acc) rest
      else scanStep ctx (.tok (acc ++ [c])) rest := rfl
  rw [step, if_neg h]

theorem scanStep_tok_append (ctx : TemplateContext) (w : List Char)
    (h : ∀ c ∈ w, c ≠ '}') : ∀ (acc rest : List Char),
    scanStep ctx (.tok acc) (w ++ rest) = scanStep ctx (.tok (acc ++ w)) rest := by
  induction w with
  | nil => intro acc rest; simp
  | cons c w' ih =>
    intro acc rest
    rw [List.cons_append, scanStep_tok_step ctx acc c _ (h c (by simp))]
    rw [ih (fun d hd => h d (by simp [hd])) (acc ++ [c]) rest]
    simp

theorem scanStep_tok_close (ctx : TemplateContext) (acc rest : List Char) :
    scanStep ctx (.tok acc) ('}' :: '}' :: rest) =
      match resolve_placeholder (trimChars acc) ctx with
      | .error e => .error e
      | .ok v => (scanStep ctx .text rest).map (fun o => (valueToStr v).data ++ o) := by
  rfl

theorem scanStep_token (ctx : TemplateContext) (inner rest : List Char)
    (h : ∀ c ∈ inner, c ≠ '}') :
    scanStep ctx .text ('{' :: '{' :: (inner ++ '}' :: '}' :: rest)) =
      match resolve_placeholder (trimChars inner) ctx with
      | .error e => .error e
      | .ok v => (scanStep ctx .text rest).map (fun o => (valueToStr v).data ++ o) := by
  have step : scanStep ctx .text ('{' :: '{' :: (inner ++ '}' :: '}' :: rest)) =
      scanStep ctx (.tok []) (inner ++ '}' :: '}' :: rest) := rfl
  rw [step]
  have := scanStep_tok_append ctx inner h [] ('}' :: '}' :: rest)
  simp only [List.nil_append] at this
  rw [this, scanStep_tok_close]

/-- The absence of a complete placeholder token: no occurrence of the
two-character opener is ever followed by the two-character closer. -/
def NoToken (l : List Char) : Prop :=
  ∀ u v : List Char, l = u ++ '{' :: '{' :: v → ¬ (['}', '}'] <:+: v)

theorem NoToken.tail {c : Char} {rest : List Char} (h : NoToken (c :: rest)) :
    NoToken rest := by
  intro u v huv hiv
  exact h (c :: u) v (by rw [huv]; rfl) hiv

theorem scanStep_tok_unterminated (ctx : TemplateContext) : ∀ (l acc : List Char),
    (¬ (['}', '}'] <:+: l) → scanStep ctx (.tok acc) l = .ok ('{' :: '{' :: acc ++ l)) ∧
    (¬ (['}', '}'] <:+: ('}' :: l)) →
      scanStep ctx (.tokBrace acc) l = .ok ('{' :: '{' :: acc ++ '}' :: l)) := by
  intro l
  induction l with
  | nil =>
    intro acc
    constructor
    · intro _
      show Except.ok ('{' :: '{' :: acc) = _
      simp
    · intro _
      show Except.ok ('{' :: '{' :: acc ++ ['}']) = _
      simp
  | cons c rest ih =>
    intro acc
    constructor
    · intro h
      by_cases hc : c = '}'
      · subst hc
        have step : scanStep ctx (.tok acc) ('}' :: rest) =
            scanStep ctx (.tokBrace acc) rest := rfl
        rw [step, (ih acc).2 h]
      · rw [scanStep_tok_step ctx acc c rest hc]
        rw [(ih (acc ++ [c])).1 (fun hi => h (List.infix_cons hi))]
        simp
    · intro h
      by_cases hc : c = '}'
      · exfalso
        apply h
        subst hc
        exact List.IsPrefix.isInfix ⟨rest, rfl⟩
      · have step : scanStep ctx (.tokBrace acc) (c :: rest) =
            scanStep ctx (.tok (acc ++ ['}', c])) rest := by
          have e : scanStep ctx (.tokBrace acc) (c :: rest) =
              if c = '}' then
                match resolve_placeholder (trimChars acc) ctx with
                | .error e => .error e
                | .ok v =>
                  (scanStep ctx .text rest).map (fun o => (valueToStr v).data ++ o)
              else scanStep ctx (.tok (acc ++ ['}', c])) rest := rfl
          rw [e, if_neg hc]
        rw [step]
        rw [(ih (acc ++ ['}', c])).1
          (fun hi => h (List.infix_cons (List.infix_cons hi)))]
        simp

theorem scan_no_token (ctx : TemplateContext) : ∀ l : List Char,
    (NoToken l → scanStep ctx .text l = .ok l) ∧
    (NoToken ('{' :: l) → scanStep ctx .textBrace l = .ok ('{' :: l)) := by
  intro l
  induction l with
  | nil =>
    constructor
    · intro _; rfl
    · intro _; rfl
  | cons c rest ih =>
    constructor
    · intro h
      by_cases hc : c = '{'
      · subst hc
        have step : scanStep ctx .text ('{' :: rest) = scanStep ctx .textBrace rest := rfl
        rw [step]
        exact ih.2 h
      · rw [scanStep_text_step ctx c rest hc]
        rw [ih.1 h.tail]
        rfl
    · intro h
      by_cases hc : c = '{'
      · subst hc
        have step : scanStep ctx .textBrace ('{' :: rest) =
            scanStep ctx (.tok []) rest := rfl
        rw [step]
        rw [(scanStep_tok_unterminated ctx rest []).1 (h [] rest rfl)]
        rfl
      · have step : scanStep ctx .textBrace (c :: rest) =
            (scanStep ctx .text rest).map (fun o => '{' :: c :: o) := by
          have e : scanStep ctx .textBrace (c :: rest) =
              if c = '{' then scanStep ctx (.tok []) rest
              else (scanStep ctx .text rest).map (fun o => '{' :: c :: o) := rfl
          rw [e, if_neg hc]
        rw [step]
        rw [ih.1 h.tail.tail]
        rfl

/-- **C9** Identity on placeholder-free templates: a template containing
no complete `{{...}}` token renders unchanged under
`render_basic`, for every context. -/
theorem no_placeholder_identity (T : String) (ctx : TemplateContext)
    (h : NoToken T.data) : render_basic T ctx = .ok T := by
  rw [render_basic, (scan_no_token ctx T.data).1 h]
  rfl

theorem noToken_of_no_open {l : List Char} (h : ¬ (['{', '{'] <:+: l)) : NoToken l := by
  intro u v huv _
  exact h (by rw [huv]; exact ⟨u, v, by simp⟩)

/-- **C9 witness**: a concrete placeholder-free template is returned
unchanged. -/
theorem no_placeholder_identity_witness :
    render_basic "Just plain text" (build_context [] []) = .ok "Just plain text" :=
  no_placeholder_identity "Just plain text" (build_context [] [])
    (noToken_of_no_open (by decide))

/-- A plain mapping key as written inside a placeholder: no dot, no
braces, no whitespace. -/
def plainKeyChar (c : Char) : Bool :=
  !(c = '.' || c = '{' || c = '}' || wsChar c)

/-- A non-empty key of plain characters. -/
def PlainKey (k : String) : Prop :=
  k.data ≠ [] ∧ ∀ c ∈ k.data, plainKeyChar c = true

theorem PlainKey.no_dot {K : String} (h : PlainKey K) : ∀ c ∈ K.data, c ≠ '.' := by
  intro c hc heq
  subst heq
  exact absurd (h.2 '.' hc) (by decide)

theorem PlainKey.no_close {K : String} (h : PlainKey K) : ∀ c ∈ K.data, c ≠ '}' := by
  intro c hc heq
  subst heq
  exact absurd (h.2 '}' hc) (by decide)

theorem PlainKey.no_ws {K : String} (h : PlainKey K) : ∀ c ∈ K.data, wsChar c = false := by
  intro c hc
  by_contra hw
  have hw' : wsChar c = true := by
    revert hw
    cases wsChar c <;> simp
  have hp := h.2 c hc
  rw [plainKeyChar, hw'] at hp
  simp at hp

theorem resolve_ns_key (ctx : TemplateContext) (ns : List Char)
    (root : List (String × Value)) (K : String)
    (hns : namespaceRoot ctx (String.mk ns) = some root)
    (hnsdot : ∀ c ∈ ns, c ≠ '.')
    (hKdot : ∀ c ∈ K.data, c ≠ '.') :
    resolve_placeholder (ns ++ '.' :: K.data) ctx =
      match List.lookup K root with
      | some v => .ok v
      | none => .error (.notFound (String.mk (ns ++ '.' :: K.data))) := by
  simp only [resolve_placeholder]
  rw [splitDots_append _ hnsdot, splitDots_no_dot hKdot]
  simp only [hns]
  simp only [walkPath, string_mk_data]

/-- Rendering of a template that is exactly one placeholder token
`\x7b\x7bns.K\x7d\x7d`: the string form of the key's value in the selected
namespace root, or the strict not-found error naming the path. -/
theorem render_basic_single_token (ctx : TemplateContext) (ns : List Char)
    (root : List (String × Value)) (K : String)
    (hns : namespaceRoot ctx (String.mk ns) = some root)
    (hnsok : ∀ c ∈ ns, c ≠ '.' ∧ c ≠ '}' ∧ wsChar c = false)
    (hK : PlainKey K) :
    render_basic (String.mk ('{' :: '{' :: ((ns ++ '.' :: K.data) ++ '}' :: '}' :: [])))
        ctx =
      match List.lookup K root with
      | some v => .ok (valueToStr v)
      | none => .error (.notFound (String.mk (ns ++ '.' :: K.data))) := by
  rw [render_basic]
  show (scanStep ctx .text
    ('{' :: '{' :: ((ns ++ '.' :: K.data) ++ '}' :: '}' :: []))).map String.mk = _
  have hinner : ∀ c ∈ ns ++ '.' :: K.data, c ≠ '}' := by
    intro c hc
    rcases List.mem_append.mp hc with h1 | h2
    · exact (hnsok c h1).2.1
    · rcases List.mem_cons.mp h2 with h3 | h4
      · subst h3; decide
      · exact hK.no_close c h4
  rw [scanStep_token ctx _ _ hinner]
  have htrim : trimChars (ns ++ '.' :: K.data) = ns ++ '.' :: K.data := by
    apply trimChars_eq_self
    intro c hc
    rcases List.mem_append.mp hc with h1 | h2
    · exact (hnsok c h1).2.2
    · rcases List.mem_cons.mp h2 with h3 | h4
      · subst h3; rfl
      · exact hK.no_ws c h4
  rw [htrim]
  rw [resolve_ns_key ctx ns root K hns (fun c hc => (hnsok c hc).1) hK.no_dot]
  cases List.lookup K root with
  | some v =>
    show (Except.ok ((valueToStr v).data ++ [])).map String.mk = _
    rw [List.append_nil]
    show Except.ok (String.mk (valueToStr v).data) = _
    rw [string_mk_data]
  | none => rfl

/-- **C1** Namespace isolation: in the context built by
`_build_context`, with the same key bound to different string values in
`env` and `props`, `\x7b\x7benv.K\x7d\x7d` renders the env value,
`\x7b\x7bprops.K\x7d\x7d` and `\x7b\x7binput.K\x7d\x7d` render the props
value, and neither namespace can ever yield the other's value. -/
theorem namespace_isolation (props env : List (String × Value)) (K V V2 : String)
    (hK : PlainKey K)
    (hE : List.lookup K env = some (.str V))
    (hP : List.lookup K props = some (.str V2))
    (hne : V ≠ V2) :
    render_basic ("\x7b\x7benv." ++ K ++ "\x7d\x7d") (build_context props env) =
      .ok V ∧
    render_basic ("\x7b\x7bprops." ++ K ++ "\x7d\x7d") (build_context props env) =
      .ok V2 ∧
    render_basic ("\x7b\x7binput." ++ K ++ "\x7d\x7d") (build_context props env) =
      .ok V2 ∧
    render_basic ("\x7b\x7bprops." ++ K ++ "\x7d\x7d") (build_context props env) ≠
      .ok V ∧
    render_basic ("\x7b\x7binput." ++ K ++ "\x7d\x7d") (build_context props env) ≠
      .ok V ∧
    render_basic ("\x7b\x7benv." ++ K ++ "\x7d\x7d") (build_context props env) ≠
      .ok V2 := by
  have hshape_env : ("\x7b\x7benv." ++ K ++ "\x7d\x7d") =
      String.mk ('{' :: '{' :: (("env".data ++ '.' :: K.data) ++ '}' :: '}' :: [])) := by
    rw [String.ext_iff, String.data_append, String.data_append]
    rfl
  have hshape_props : ("\x7b\x7bprops." ++ K ++ "\x7d\x7d") =
      String.mk ('{' :: '{' :: (("props".data ++ '.' :: K.data) ++ '}' :: '}' :: [])) := by
    rw [String.ext_iff, String.data_append, String.data_append]
    rfl
  have hshape_input : ("\x7b\x7binput." ++ K ++ "\x7d\x7d") =
      String.mk ('{' :: '{' :: (("input".data ++ '.' :: K.data) ++ '}' :: '}' :: [])) := by
    rw [String.ext_iff, String.data_append, String.data_append]
    rfl
  have h1 := render_basic_single_token (build_context props env) "env".data env K
    rfl (by decide) hK
  have h2 := render_basic_single_token (build_context props env) "props".data props K
    rfl (by decide) hK
  have h3 := render_basic_single_token (build_context props env) "input".data props K
    rfl (by decide) hK
  rw [hE] at h1
  rw [hP] at h2
  rw [hP] at h3
  simp only [valueToStr] at h1 h2 h3
  rw [hshape_env, hshape_props, hshape_input]
  refine ⟨h1, h2, h3, ?_, ?_, ?_⟩
  · rw [h2]
    intro hc
    injection hc with h
    exact hne h.symm
  · rw [h3]
    intro hc
    injection hc with h
    exact hne h.symm
  · rw [h1]
    intro hc
    injection hc with h
    exact hne h

/-- **C1 witness**: with `TOKEN` bound to different values in the two
namespaces, each namespace path renders its own value only. -/
theorem namespace_isolation_witness :
    render_basic "\x7b\x7benv.TOKEN\x7d\x7d"
      (build_context [("TOKEN", .str "props_value")] [("TOKEN", .str "env_value")]) =
      .ok "env_value" ∧
    render_basic "\x7b\x7bprops.TOKEN\x7d\x7d"
      (build_context [("TOKEN", .str "props_value")] [("TOKEN", .str "env_value")]) =
      .ok "props_value" ∧
    render_basic "\x7b\x7bprops.TOKEN\x7d\x7d"
      (build_context [("TOKEN", .str "props_value")] [("TOKEN", .str "env_value")]) ≠
      .ok "env_value" := by
  have h := namespace_isolation [("TOKEN", .str "props_value")]
    [("TOKEN", .str "env_value")] "TOKEN" "env_value" "props_value"
    ⟨by decide, by decide⟩ (by rfl) (by rfl) (by decide)
  exact ⟨h.1, h.2.1, h.2.2.2.1⟩

/-- **C2** Single-pass substitution (anti-injection): whatever string is
bound to `props.x` — including one that is itself placeholder syntax —
rendering `\x7b\x7bprops.x\x7d\x7d` substitutes it verbatim, and in
particular never yields the resolved value of `env.SECRET`. -/
theorem single_pass_substitution (props env : List (String × Value)) (s : String)
    (hP : List.lookup "x" props = some (.str s)) :
    render_basic "\x7b\x7bprops.x\x7d\x7d" (build_context props env) = .ok s ∧
    (∀ secret : String, List.lookup "SECRET" env = some (.str secret) →
      secret ≠ s →
      render_basic "\x7b\x7bprops.x\x7d\x7d" (build_context props env) ≠
        .ok secret) := by
  have hshape : ("\x7b\x7bprops.x\x7d\x7d" : String) =
      String.mk ('{' :: '{' :: (("props".data ++ '.' :: "x".data) ++ '}' :: '}' :: [])) :=
    by rfl
  have h1 := render_basic_single_token (build_context props env) "props".data props "x"
    rfl (by decide) ⟨by decide, by decide⟩
  rw [hP] at h1
  rw [hshape]
  refine ⟨h1, ?_⟩
  intro secret _ hne
  rw [h1]
  intro hc
  exact hne (by injection hc with h; exact h.symm)

/-- **C2 witness**: `props.x` holding literal placeholder syntax renders
as that literal text, not as the secret env value. -/
theorem single_pass_substitution_witness :
    render_basic "\x7b\x7bprops.x\x7d\x7d"
      (build_context [("x", .str "\x7b\x7benv.SECRET\x7d\x7d")]
        [("SECRET", .str "secret_key")]) = .ok "\x7b\x7benv.SECRET\x7d\x7d" ∧
    render_basic "\x7b\x7bprops.x\x7d\x7d"
      (build_context [("x", .str "\x7b\x7benv.SECRET\x7d\x7d")]
        [("SECRET", .str "secret_key")]) ≠ .ok "secret_key" := by
  have h := single_pass_substitution [("x", .str "\x7b\x7benv.SECRET\x7d\x7d")]
    [("SECRET", .str "secret_key")] "\x7b\x7benv.SECRET\x7d\x7d" (by rfl)
  exact ⟨h.1, h.2 "secret_key" (by rfl) (by decide)⟩

/-- **C7** Strict failure of basic rendering on missing keys: when `K` is
absent from `props`, rendering `\x7b\x7bprops.K\x7d\x7d` fails with a
`TemplateError` naming the offending path `props.K`, whatever `env`
contains; and a dotted lookup through a non-mapping value
(`props.value.invalid` where `props.value` is a string) fails distinctly
as a non-dict access. -/
theorem strict_missing_and_nondict (props env : List (String × Value)) (K : String)
    (hK : PlainKey K) (habs : List.lookup K props = none) :
    render_basic ("\x7b\x7bprops." ++ K ++ "\x7d\x7d") (build_context props env) =
      .error (.notFound ("props." ++ K)) ∧
    (∀ s, List.lookup "value" props = some (.str s) →
      render_basic "\x7b\x7bprops.value.invalid\x7d\x7d" (build_context props env) =
        .error (.nonDictAccess "props.value.invalid")) := by
  constructor
  · have hshape : ("\x7b\x7bprops." ++ K ++ "\x7d\x7d") =
        String.mk ('{' :: '{' :: (("props".data ++ '.' :: K.data) ++ '}' :: '}' :: [])) := by
      rw [String.ext_iff, String.data_append, String.data_append]
      rfl
    have hpath : String.mk ("props".data ++ '.' :: K.data) = "props." ++ K := by
      rw [String.ext_iff, String.data_append]
      rfl
    have h1 := render_basic_single_token (build_context props env) "props".data props K
      rfl (by decide) hK
    rw [habs, hpath] at h1
    rw [hshape]
    exact h1
  · intro s hval
    have hres : resolve_placeholder ("props.value.invalid".data)
        (build_context props env) = .error (.nonDictAccess "props.value.invalid") := by
      have step : resolve_placeholder ("props.value.invalid".data)
          (build_context props env) =
          walkPath "props.value.invalid" (.obj props)
            [['v', 'a', 'l', 'u', 'e'], ['i', 'n', 'v', 'a', 'l', 'i', 'd']] := rfl
      rw [step]
      have step2 : walkPath "props.value.invalid" (.obj props)
          [['v', 'a', 'l', 'u', 'e'], ['i', 'n', 'v', 'a', 'l', 'i', 'd']] =
          match List.lookup "value" props with
          | some v => walkPath "props.value.invalid" v [['i', 'n', 'v', 'a', 'l', 'i', 'd']]
          | none => .error (.notFound "props.value.invalid") := rfl
      rw [step2, hval]
      rfl
    rw [render_basic]
    show (scanStep (build_context props env) .text
      ('{' :: '{' :: ("props.value.invalid".data ++ '}' :: '}' :: []))).map String.mk = _
    rw [scanStep_token _ _ _ (by decide)]
    rw [show trimChars ("props.value.invalid".data) = "props.value.invalid".data from rfl]
    rw [hres]
    rfl

/-- **C7 witness**: `props.name` missing (while `env.name` is set) fails
naming the path; `props.value.invalid` over a string value fails as a
non-dict access. -/
theorem strict_missing_and_nondict_witness :
    render_basic "\x7b\x7bprops.name\x7d\x7d"
      (build_context [("value", .str "string")] [("name", .str "from_env")]) =
      .error (.notFound "props.name") ∧
    render_basic "\x7b\x7bprops.value.invalid\x7d\x7d"
      (build_context [("value", .str "string")] [("name", .str "from_env")]) =
      .error (.nonDictAccess "props.value.invalid") := by
  have h := strict_missing_and_nondict [("value", .str "string")]
    [("name", .str "from_env")] "name" ⟨by decide, by decide⟩ (by rfl)
  exact ⟨h.1, h.2 "string" (by rfl)⟩

theorem digitVal_digitChar {m : Nat} (h : m < 10) : digitVal (digitChar m) = m := by
  interval_cases m <;> rfl

theorem digitChar_isDigit {m : Nat} (h : m < 10) : (digitChar m).isDigit = true := by
  interval_cases m <;> rfl

theorem natToChars_unfold (n : Nat) : natToChars n =
    if n < 10 then [digitChar n] else natToChars (n / 10) ++ [digitChar (n % 10)] := by
  rw [natToChars, natToCharsAux]
  split
  · rfl
  · rename_i h10
    have hlt : n / 10 < n := Nat.div_lt_self (by omega) (by omega)
    rw [natToCharsAux_congr (n / 10) n (n / 10 + 1) (by omega) (by omega)]
    rfl

theorem natToChars_ne_nil (n : Nat) : natToChars n ≠ [] := by
  rw [natToChars_unfold]
  split
  · simp
  · simp

theorem natToChars_digits (n : Nat) : ∀ c ∈ natToChars n, c.isDigit = true := by
  induction n using Nat.strong_induction_on with
  | _ n ih =>
    intro c hc
    rw [natToChars_unfold] at hc
    split at hc
    · rename_i h10
      simp at hc
      subst hc
      exact digitChar_isDigit h10
    · rename_i h10
      rcases List.mem_append.mp hc with h1 | h2
      · exact ih (n / 10) (Nat.div_lt_self (by omega) (by omega)) c h1
      · simp at h2
        subst h2
        exact digitChar_isDigit (Nat.mod_lt _ (by omega))

theorem digitsToNat_append_one (w : List Char) (d : Char) :
    digitsToNat (w ++ [d]) = 10 * digitsToNat w + digitVal d := by
  rw [digitsToNat, digitsToNat, List.foldl_append]
  simp [Nat.mul_comm]

theorem digitsToNat_natToChars (n : Nat) : digitsToNat (natToChars n) = n := by
  induction n using Nat.strong_induction_on with
  | _ n ih =>
    rw [natToChars_unfold]
    split
    · rename_i h10
      show digitsToNat [digitChar n] = n
      rw [show digitsToNat [digitChar n] = 0 * 10 + digitVal (digitChar n) from rfl]
      rw [digitVal_digitChar h10]
      omega
    · rename_i h10
      rw [digitsToNat_append_one,
        ih (n / 10) (Nat.div_lt_self (by omega) (by omega)),
        digitVal_digitChar (Nat.mod_lt _ (by omega))]
      omega

theorem isDigit_ne_of (c x : Char) (hd : c.isDigit = true) (hx : x.isDigit = false) :
    c ≠ x := by
  intro h
  rw [h, hx] at hd
  cases hd

theorem takeWhile_all_append {p : Char → Bool} (w r : List Char)
    (hw : ∀ c ∈ w, p c = true) (hr : ∀ c, r.head? = some c → p c = false) :
    (w ++ r).takeWhile p = w := by
  induction w with
  | nil =>
    rw [List.nil_append]
    cases r with
    | nil => rfl
    | cons c r' =>
      rw [List.takeWhile_cons, hr c rfl]
      simp
  | cons c w' ih =>
    rw [List.cons_append, List.takeWhile_cons, hw c (by simp)]
    have hih := ih (fun d hd => hw d (by simp [hd]))
    simp [hih]

theorem dropWhile_head_not {p : Char → Bool} (l : List Char)
    (h : ∀ c, l.head? = some c → p c = false) : l.dropWhile p = l := by
  cases l with
  | nil => rfl
  | cons c r =>
    rw [List.dropWhile_cons, h c rfl]
    simp

theorem head?_append_of_ne_nil {w r : List Char} (h : w ≠ []) :
    (w ++ r).head? = w.head? := by
  cases w with
  | nil => exact absurd rfl h
  | cons c w' => rfl

theorem isDigit_not_ws (c : Char) (h : c.isDigit = true) : wsChar c = false := by
  cases hw : wsChar c
  · rfl
  · exfalso
    simp [wsChar] at hw
    rcases hw with ((h1 | h1) | h1) | h1 <;> subst h1 <;> exact absurd h (by decide)

theorem parseNatPart_natToChars (m : Nat) (r : List Char)
    (hr : ∀ c, r.head? = some c → c.isDigit = false) :
    parseNatPart (natToChars m ++ r) = some (m, r) := by
  simp only [parseNatPart]
  rw [takeWhile_all_append _ _ (natToChars_digits m) hr]
  rw [if_neg (by simp [natToChars_ne_nil m])]
  rw [digitsToNat_natToChars, List.drop_left]

theorem intToChars_head_not_ws :
    ∀ (a : Int) (c : Char), (intToChars a).head? = some c → wsChar c = false := by
  intro a c hc
  rw [intToChars] at hc
  split at hc
  · simp at hc
    subst hc
    rfl
  · have hne := natToChars_ne_nil a.toNat
    cases hn : natToChars a.toNat with
    | nil => exact absurd hn hne
    | cons d w =>
      rw [hn] at hc
      simp at hc
      subst hc
      have hd : d.isDigit = true := natToChars_digits a.toNat d (by rw [hn]; simp)
      exact isDigit_not_ws d hd

theorem parseIntPart_intToChars (a : Int) (r : List Char)
    (hr : ∀ c, r.head? = some c → c.isDigit = false) :
    parseIntPart (intToChars a ++ r) = some (a, r) := by
  rw [parseIntPart, intToChars]
  split
  · rename_i hneg
    rw [List.cons_append]
    simp only [List.head?_cons, if_pos rfl, List.tail_cons]
    rw [parseNatPart_natToChars _ _ hr]
    have hval : -((a.natAbs : Nat) : Int) = a := by omega
    show some (-((a.natAbs : Nat) : Int), r) = some (a, r)
    rw [hval]
  · rename_i hpos
    rw [head?_append_of_ne_nil (natToChars_ne_nil a.toNat)]
    have hhead : ∀ c, (natToChars a.toNat).head? = some c → c ≠ '-' := by
      intro c hc
      have : c.isDigit = true := by
        apply natToChars_digits a.toNat
        cases hn : natToChars a.toNat with
        | nil => exact absurd hn (natToChars_ne_nil _)
        | cons d w => rw [hn] at hc; simp at hc; subst hc; simp
      exact isDigit_ne_of c '-' this (by decide)
    rw [if_neg (by
      cases hn : (natToChars a.toNat).head? with
      | none =>
        have := natToChars_ne_nil a.toNat
        cases hm : natToChars a.toNat with
        | nil => exact absurd hm this
        | cons d w => rw [hm] at hn; cases hn
      | some c =>
        have := hhead c hn
        simp
        intro hcontra
        exact this hcontra)]
    rw [parseNatPart_natToChars _ _ hr]
    have hval : ((a.toNat : Nat) : Int) = a := by omega
    show some (((a.toNat : Nat) : Int), r) = some (a, r)
    rw [hval]

theorem intToChars_ne_nil (a : Int) : intToChars a ≠ [] := by
  rw [intToChars]
  split
  · simp
  · exact natToChars_ne_nil _

theorem findSub_marker (p' body r : List Char) (hb : ∀ c ∈ body, c ≠ '@') :
    findSub ('@' :: p') (body ++ (('@' :: p') ++ r)) = some (body, r) := by
  induction body with
  | nil =>
    rw [List.nil_append]
    show findSub ('@' :: p') ('@' :: (p' ++ r)) = some ([], r)
    have step : findSub ('@' :: p') ('@' :: (p' ++ r)) =
        if ('@' :: (p' ++ r)).take ('@' :: p').length = '@' :: p'
        then some ([], ('@' :: (p' ++ r)).drop ('@' :: p').length)
        else (findSub ('@' :: p') (p' ++ r)).map (fun q => ('@' :: q.1, q.2)) := rfl
    rw [step]
    have ht : ('@' :: (p' ++ r)).take ('@' :: p').length = '@' :: p' := by
      show ('@' :: (p' ++ r)).take (p'.length + 1) = '@' :: p'
      rw [List.take_succ_cons, List.take_left]
    rw [if_pos ht]
    have hd : ('@' :: (p' ++ r)).drop ('@' :: p').length = r := by
      show ('@' :: (p' ++ r)).drop (p'.length + 1) = r
      rw [List.drop_succ_cons, List.drop_left]
    rw [hd]
  | cons c b' ih =>
    rw [List.cons_append]
    have step : findSub ('@' :: p') (c :: (b' ++ (('@' :: p') ++ r))) =
        if (c :: (b' ++ (('@' :: p') ++ r))).take ('@' :: p').length = '@' :: p'
        then some ([], (c :: (b' ++ (('@' :: p') ++ r))).drop ('@' :: p').length)
        else (findSub ('@' :: p') (b' ++ (('@' :: p') ++ r))).map
          (fun q => (c :: q.1, q.2)) := rfl
    rw [step]
    rw [if_neg (by
      show ¬ (c :: (b' ++ (('@' :: p') ++ r))).take (p'.length + 1) = '@' :: p'
      rw [List.take_succ_cons]
      intro hcontra
      have : c = '@' := by injection hcontra with h1 h2
      exact hb c (by simp) this)]
    rw [ih (fun d hd => hb d (by simp [hd]))]
    rfl

theorem findSub_endfor (body r : List Char) (hb : ∀ c ∈ body, c ≠ '@') :
    findSub "@endfor".data
      (body ++ ('@' :: 'e' :: 'n' :: 'd' :: 'f' :: 'o' :: 'r' :: r)) = some (body, r) :=
  findSub_marker "endfor".data body r hb

theorem forScanAux_step (m : Nat) (c : Char) (rest : List Char) :
    forScanAux (m + 1) (c :: rest) =
      if c = '@' ∧ rest.take 4 = "for(".data then
        match parseForHeader (rest.drop 4) with
        | some (ident, a, b, afterHeader) =>
          match findSub "@endfor".data afterHeader with
          | some (body, rest') =>
            ((rangeList a b).map
              (fun i => substIdent body ident (intToChars i))).flatten
              ++ forScanAux m rest'
          | none => c :: forScanAux m rest
        | none => c :: forScanAux m rest
      else c :: forScanAux m rest := rfl

theorem forScanAux_congr : ∀ (k : Nat) (l : List Char), l.length = k →
    ∀ f g, k < f → k < g → forScanAux f l = forScanAux g l := by
  intro k
  induction k using Nat.strong_induction_on with
  | _ k ih =>
    intro l hk f g hf hg
    match f, g with
    | f' + 1, g' + 1 =>
      cases l with
      | nil => rfl
      | cons c rest =>
        have hrk : rest.length + 1 = k := by
          simpa using hk
        rw [forScanAux_step f', forScanAux_step g']
        by_cases hcond : c = '@' ∧ rest.take 4 = "for(".data
        · rw [if_pos hcond, if_pos hcond]
          cases hh : parseForHeader (rest.drop 4) with
          | none =>
            show c :: forScanAux f' rest = c :: forScanAux g' rest
            rw [ih rest.length (by omega) rest rfl f' g' (by omega) (by omega)]
          | some q =>
            obtain ⟨ident, a, b, afterHeader⟩ := q
            show (match findSub "@endfor".data afterHeader with
              | some (body, rest') =>
                ((rangeList a b).map
                  (fun i => substIdent body ident (intToChars i))).flatten
                  ++ forScanAux f' rest'
              | none => c :: forScanAux f' rest) =
              (match findSub "@endfor".data afterHeader with
              | some (body, rest') =>
                ((rangeList a b).map
                  (fun i => substIdent body ident (intToChars i))).flatten
                  ++ forScanAux g' rest'
              | none => c :: forScanAux g' rest)
            cases hf2 : findSub "@endfor".data afterHeader with
            | none =>
              show c :: forScanAux f' rest = c :: forScanAux g' rest
              rw [ih rest.length (by omega) rest rfl f' g' (by omega) (by omega)]
            | some p =>
              obtain ⟨body, rest'⟩ := p
              show ((rangeList a b).map
                  (fun i => substIdent body ident (intToChars i))).flatten
                  ++ forScanAux f' rest' =
                ((rangeList a b).map
                  (fun i => substIdent body ident (intToChars i))).flatten
                  ++ forScanAux g' rest'
              have hlen1 := parseForHeader_length hh
              have hlen2 := findSub_length (by decide) hf2
              have hlen3 : (rest.drop 4).length ≤ rest.length := by simp
              rw [ih rest'.length (by omega) rest' rfl f' g' (by omega) (by omega)]
        · rw [if_neg hcond, if_neg hcond,
            ih rest.length (by omega) rest rfl f' g' (by omega) (by omega)]

theorem forScan_cons_no_block (c : Char) (rest : List Char)
    (hc : ¬ (c = '@' ∧ rest.take 4 = "for(".data)) :
    forScan (c :: rest) = c :: forScan rest := by
  show forScanAux (rest.length + 1 + 1) (c :: rest) = c :: forScan rest
  rw [forScanAux_step (rest.length + 1) c rest, if_neg hc]
  rfl

theorem forScan_no_at_append (p t : List Char) (hp : ∀ c ∈ p, c ≠ '@') :
    forScan (p ++ t) = p ++ forScan t := by
  induction p with
  | nil => simp
  | cons c p' ih =>
    rw [List.cons_append]
    rw [forScan_cons_no_block c (p' ++ t) (fun h => hp c (by simp) h.1)]
    rw [ih (fun d hd => hp d (by simp [hd]))]
    rfl

theorem parseForHeader_canonical (x : List Char) (a b : Int) (tail2 : List Char)
    (hx1 : x ≠ []) (hx2 : ∀ c ∈ x, identChar c = true) :
    parseForHeader (x ++ (' ' :: 'i' :: 'n' :: ' ' :: 'r' :: 'a' :: 'n' :: 'g' :: 'e' ::
        '(' :: (intToChars a ++ (',' :: ' ' :: (intToChars b ++
          (')' :: ')' :: tail2)))))) = some (x, a, b, tail2) := by
  have htw : (x ++ (' ' :: 'i' :: 'n' :: ' ' :: 'r' :: 'a' :: 'n' :: 'g' :: 'e' ::
      '(' :: (intToChars a ++ (',' :: ' ' :: (intToChars b ++
        (')' :: ')' :: tail2)))))).takeWhile identChar = x := by
    apply takeWhile_all_append x _ hx2
    intro c hc
    injection hc with h
    subst h
    decide
  have hie : x.isEmpty = false := by
    cases x with
    | nil => exact absurd rfl hx1
    | cons c w => rfl
  have he1 : expectPrefix " in range(".data
      (' ' :: 'i' :: 'n' :: ' ' :: 'r' :: 'a' :: 'n' :: 'g' :: 'e' :: '(' ::
        (intToChars a ++ (',' :: ' ' :: (intToChars b ++ (')' :: ')' :: tail2))))) =
      some (intToChars a ++ (',' :: ' ' :: (intToChars b ++ (')' :: ')' :: tail2)))) :=
    rfl
  have hd1 : (intToChars a ++ (',' :: ' ' :: (intToChars b ++
      (')' :: ')' :: tail2)))).dropWhile wsChar =
      intToChars a ++ (',' :: ' ' :: (intToChars b ++ (')' :: ')' :: tail2))) := by
    apply dropWhile_head_not
    intro c hc
    rw [head?_append_of_ne_nil (intToChars_ne_nil a)] at hc
    exact intToChars_head_not_ws a c hc
  have hpi1 : parseIntPart (intToChars a ++ (',' :: ' ' :: (intToChars b ++
      (')' :: ')' :: tail2)))) =
      some (a, ',' :: ' ' :: (intToChars b ++ (')' :: ')' :: tail2))) := by
    apply parseIntPart_intToChars
    intro c hc
    injection hc with h
    subst h
    decide
  have hd4 : (intToChars b ++ (')' :: ')' :: tail2)).dropWhile wsChar =
      intToChars b ++ (')' :: ')' :: tail2) := by
    apply dropWhile_head_not
    intro c hc
    rw [head?_append_of_ne_nil (intToChars_ne_nil b)] at hc
    exact intToChars_head_not_ws b c hc
  have hpi2 : parseIntPart (intToChars b ++ (')' :: ')' :: tail2)) =
      some (b, ')' :: ')' :: tail2) := by
    apply parseIntPart_intToChars
    intro c hc
    injection hc with h
    subst h
    decide
  have hd2 : List.dropWhile wsChar
      (',' :: ' ' :: (intToChars b ++ (')' :: ')' :: tail2))) =
      ',' :: ' ' :: (intToChars b ++ (')' :: ')' :: tail2)) := rfl
  have he2 : expectPrefix [','] (',' :: ' ' :: (intToChars b ++ (')' :: ')' :: tail2))) =
      some (' ' :: (intToChars b ++ (')' :: ')' :: tail2))) := rfl
  have hd3 : List.dropWhile wsChar (' ' :: (intToChars b ++ (')' :: ')' :: tail2))) =
      List.dropWhile wsChar (intToChars b ++ (')' :: ')' :: tail2)) := rfl
  have hd5 : List.dropWhile wsChar (')' :: ')' :: tail2) = ')' :: ')' :: tail2 := rfl
  have he3 : expectPrefix [')', ')'] (')' :: ')' :: tail2) = some tail2 := rfl
  simp only [parseForHeader, htw, hie, List.drop_left, he1, hd1, hpi1, hd2, he2, hd3,
    hd4, hpi2, hd5, he3]
  rfl

theorem forScan_block (x body rest : List Char) (a b : Int)
    (hx1 : x ≠ []) (hx2 : ∀ c ∈ x, identChar c = true)
    (hb : ∀ c ∈ body, c ≠ '@') :
    forScan ('@' :: 'f' :: 'o' :: 'r' :: '(' ::
        (x ++ (' ' :: 'i' :: 'n' :: ' ' :: 'r' :: 'a' :: 'n' :: 'g' :: 'e' :: '(' ::
          (intToChars a ++ (',' :: ' ' :: (intToChars b ++ (')' :: ')' ::
            (body ++ ('@' :: 'e' :: 'n' :: 'd' :: 'f' :: 'o' :: 'r' :: rest))))))))) =
      ((rangeList a b).map (fun i => substIdent body x (intToChars i))).flatten ++
        forScan rest := by
  rw [forScan]
  rw [show ('@' :: 'f' :: 'o' :: 'r' :: '(' ::
      (x ++ (' ' :: 'i' :: 'n' :: ' ' :: 'r' :: 'a' :: 'n' :: 'g' :: 'e' :: '(' ::
        (intToChars a ++ (',' :: ' ' :: (intToChars b ++ (')' :: ')' ::
          (body ++ ('@' :: 'e' :: 'n' :: 'd' :: 'f' :: 'o' :: 'r' :: rest))))))))).length
      = ('f' :: 'o' :: 'r' :: '(' ::
      (x ++ (' ' :: 'i' :: 'n' :: ' ' :: 'r' :: 'a' :: 'n' :: 'g' :: 'e' :: '(' ::
        (intToChars a ++ (',' :: ' ' :: (intToChars b ++ (')' :: ')' ::
          (body ++ ('@' :: 'e' :: 'n' :: 'd' :: 'f' :: 'o' :: 'r' :: rest))))))))).length
      + 1 from rfl]
  rw [forScanAux_step]
  rw [if_pos (⟨rfl, by
    rw [show List.take 4 ('f' :: 'o' :: 'r' :: '(' ::
      (x ++ (' ' :: 'i' :: 'n' :: ' ' :: 'r' :: 'a' :: 'n' :: 'g' :: 'e' :: '(' ::
        (intToChars a ++ (',' :: ' ' :: (intToChars b ++ (')' :: ')' ::
          (body ++ ('@' :: 'e' :: 'n' :: 'd' :: 'f' :: 'o' :: 'r' :: rest))))))))) =
      ['f', 'o', 'r', '('] from rfl]⟩)]
  have hdrop : List.drop 4 ('f' :: 'o' :: 'r' :: '(' ::
      (x ++ (' ' :: 'i' :: 'n' :: ' ' :: 'r' :: 'a' :: 'n' :: 'g' :: 'e' :: '(' ::
        (intToChars a ++ (',' :: ' ' :: (intToChars b ++ (')' :: ')' ::
          (body ++ ('@' :: 'e' :: 'n' :: 'd' :: 'f' :: 'o' :: 'r' :: rest))))))))) =
      x ++ (' ' :: 'i' :: 'n' :: ' ' :: 'r' :: 'a' :: 'n' :: 'g' :: 'e' :: '(' ::
        (intToChars a ++ (',' :: ' ' :: (intToChars b ++ (')' :: ')' ::
          (body ++ ('@' :: 'e' :: 'n' :: 'd' :: 'f' :: 'o' :: 'r' :: rest))))))) := rfl
  have hh := parseForHeader_canonical x a b
    (body ++ ('@' :: 'e' :: 'n' :: 'd' :: 'f' :: 'o' :: 'r' :: rest)) hx1 hx2
  have hf : findSub "@endfor".data
      (body ++ ('@' :: 'e' :: 'n' :: 'd' :: 'f' :: 'o' :: 'r' :: rest)) =
      some (body, rest) := findSub_endfor body rest hb
  simp only [hdrop, hh, hf]
  have hlen : rest.length <
      ('f' :: 'o' :: 'r' :: '(' ::
        (x ++ (' ' :: 'i' :: 'n' :: ' ' :: 'r' :: 'a' :: 'n' :: 'g' :: 'e' :: '(' ::
          (intToChars a ++ (',' :: ' ' :: (intToChars b ++ (')' :: ')' ::
            (body ++ ('@' :: 'e' :: 'n' :: 'd' :: 'f' :: 'o' :: 'r' ::
              rest))))))))).length := by
    simp
    omega
  congr 1
  rw [forScan]
  exact forScanAux_congr rest.length rest rfl _ _ (by omega) (by omega)

theorem rangeList_empty (a b : Int) (h : b ≤ a) : rangeList a b = [] := by
  rw [rangeList]
  have h0 : (b - a).toNat = 0 := by omega
  rw [h0]
  rfl

theorem rangeList_cons (a b : Int) (h : a < b) :
    rangeList a b = a :: rangeList (a + 1) b := by
  rw [rangeList, rangeList]
  have h1 : (b - a).toNat = (b - (a + 1)).toNat + 1 := by omega
  rw [h1, List.range_succ_eq_map, List.map_cons, List.map_map]
  congr 1
  · simp
  · have hfun : ((fun k : Nat => a + (k : Int)) ∘ Nat.succ) =
        (fun k : Nat => a + 1 + (k : Int)) := by
      funext k
      simp [Function.comp]
      omega
    rw [hfun]

/-- **C8** `@for` loop semantics: a well-formed
`@for(ident in range(a, b))body@endfor` block expands to one copy of the
body per integer of the half-open range `[a, b)` — in increasing order
(`rangeList a b` is `a :: rangeList (a+1) b` when `a < b`) and empty when
`b ≤ a` — with the bare `\x7b\x7bident\x7d\x7d` token substituted by the
current integer, while scanning continues on the remaining text, and
`@for`-free text passes through unchanged so that every independent block
of a template is processed. -/
theorem for_loop_expansion (ctx : TemplateContext) (x body rest : List Char)
    (a b : Int) (hx1 : x ≠ []) (hx2 : ∀ c ∈ x, identChar c = true)
    (hb : ∀ c ∈ body, c ≠ '@') :
    parse_for_loop (String.mk ('@' :: 'f' :: 'o' :: 'r' :: '(' ::
        (x ++ (' ' :: 'i' :: 'n' :: ' ' :: 'r' :: 'a' :: 'n' :: 'g' :: 'e' :: '(' ::
          (intToChars a ++ (',' :: ' ' :: (intToChars b ++ (')' :: ')' ::
            (body ++ ('@' :: 'e' :: 'n' :: 'd' :: 'f' :: 'o' :: 'r' ::
              rest)))))))))) ctx =
      String.mk
        (((rangeList a b).map (fun i => substIdent body x (intToChars i))).flatten ++
          forScan rest) ∧
    (b ≤ a → rangeList a b = []) ∧
    (a < b → rangeList a b = a :: rangeList (a + 1) b) ∧
    (∀ p t : List Char, (∀ c ∈ p, c ≠ '@') → forScan (p ++ t) = p ++ forScan t) := by
  refine ⟨?_, rangeList_empty a b, rangeList_cons a b, forScan_no_at_append⟩
  show String.mk (forScan ('@' :: 'f' :: 'o' :: 'r' :: '(' ::
      (x ++ (' ' :: 'i' :: 'n' :: ' ' :: 'r' :: 'a' :: 'n' :: 'g' :: 'e' :: '(' ::
        (intToChars a ++ (',' :: ' ' :: (intToChars b ++ (')' :: ')' ::
          (body ++ ('@' :: 'e' :: 'n' :: 'd' :: 'f' :: 'o' :: 'r' :: rest)))))))))) = _
  rw [forScan_block x body rest a b hx1 hx2 hb]

/-- **C8 witness**: the unit-test templates — three iterations in order,
the empty range, and two independent blocks in one template. -/
theorem for_loop_expansion_witness :
    parse_for_loop "@for(i in range(0, 3))Item \x7b\x7bi\x7d\x7d @endfor"
      (build_context [] []) = "Item 0 Item 1 Item 2 " ∧
    parse_for_loop "@for(i in range(0, 0))Should not appear@endfor"
      (build_context [] []) = "" ∧
    parse_for_loop
      "@for(i in range(0, 2))A\x7b\x7bi\x7d\x7d@endfor-@for(j in range(0, 2))B\x7b\x7bj\x7d\x7d@endfor"
      (build_context [] []) = "A0A1-B0B1" := by
  refine ⟨?_, ?_, ?_⟩
  · rw [show ("@for(i in range(0, 3))Item \x7b\x7bi\x7d\x7d @endfor" : String) =
      String.mk ('@' :: 'f' :: 'o' :: 'r' :: '(' ::
        ("i".data ++ (' ' :: 'i' :: 'n' :: ' ' :: 'r' :: 'a' :: 'n' :: 'g' :: 'e' :: '(' ::
          (intToChars 0 ++ (',' :: ' ' :: (intToChars 3 ++ (')' :: ')' ::
            ("Item \x7b\x7bi\x7d\x7d ".data ++ ('@' :: 'e' :: 'n' :: 'd' :: 'f' :: 'o' ::
              'r' :: ([] : List Char)))))))))) from rfl]
    rw [(for_loop_expansion (build_context [] []) "i".data "Item \x7b\x7bi\x7d\x7d ".data
      [] 0 3 (by decide) (by decide) (by decide)).1]
    rfl
  · rw [show ("@for(i in range(0, 0))Should not appear@endfor" : String) =
      String.mk ('@' :: 'f' :: 'o' :: 'r' :: '(' ::
        ("i".data ++ (' ' :: 'i' :: 'n' :: ' ' :: 'r' :: 'a' :: 'n' :: 'g' :: 'e' :: '(' ::
          (intToChars 0 ++ (',' :: ' ' :: (intToChars 0 ++ (')' :: ')' ::
            ("Should not appear".data ++ ('@' :: 'e' :: 'n' :: 'd' :: 'f' :: 'o' ::
              'r' :: ([] : List Char)))))))))) from rfl]
    rw [(for_loop_expansion (build_context [] []) "i".data "Should not appear".data
      [] 0 0 (by decide) (by decide) (by decide)).1]
    rfl
  · rw [show ("@for(i in range(0, 2))A\x7b\x7bi\x7d\x7d@endfor-@for(j in range(0, 2))B\x7b\x7bj\x7d\x7d@endfor" : String) =
      String.mk ('@' :: 'f' :: 'o' :: 'r' :: '(' ::
        ("i".data ++ (' ' :: 'i' :: 'n' :: ' ' :: 'r' :: 'a' :: 'n' :: 'g' :: 'e' :: '(' ::
          (intToChars 0 ++ (',' :: ' ' :: (intToChars 2 ++ (')' :: ')' ::
            ("A\x7b\x7bi\x7d\x7d".data ++ ('@' :: 'e' :: 'n' :: 'd' :: 'f' :: 'o' ::
              'r' ::
              ("-@for(j in range(0, 2))B\x7b\x7bj\x7d\x7d@endfor".data)))))))))) from
      rfl]
    rw [(for_loop_expansion (build_context [] []) "i".data "A\x7b\x7bi\x7d\x7d".data
      "-@for(j in range(0, 2))B\x7b\x7bj\x7d\x7d@endfor".data 0 2
      (by decide) (by decide) (by decide)).1]
    rfl
